import Mathlib

/-!
# Verification of the session-history store of `time-tracker`

A shallow embedding of `src/main.go`'s persistence core: the report
writer `saveHistory`, the line-scanning reader `loadHistory`, and the
two duration formatters `formatDuration` / `formatDurationLong`.

Modelling conventions:
* A file is a `List Line` with `Line := List Char` — `bufio.Scanner`
  hands the reader one line at a time with the newline stripped, and
  the writer's output is reproduced here directly as its list of lines
  (the byte string it builds is newline-terminated, so the scanner
  yields exactly these lines).
* `time.Time` values are calendar field tuples (`DateTime`) at second
  precision; time-zone handling is out of scope (spec §1 non-goals).
  `time.Duration` values are whole seconds as `Int` (the formatters
  truncate to whole units exactly as `int(d.Hours())` etc. do).
* `os.Open` failure is modelled by the reader's argument being `none`;
  `time.Now()` is a `DateTime` parameter of the writer.
* Go's `time.Parse` is modelled for the one layout the reader uses,
  `"Monday, January 02, 2006 03:04:05 PM"`, element by element as Go
  consumes it (case-insensitive name lookup, fixed-width digit fields,
  range checks, 12-hour fix-up, day-of-month validation, no leftover
  input).  Negative-year input syntax is not modelled.
* Go identifiers are kept; `session.end` is renamed `endT` because
  `end` is a Lean keyword.
-/

namespace TimeTracker

abbrev Line := List Char

/-! ## Decimal rendering (`fmt.Sprintf` verbs `%d`, `%02d`, `%04d`-style padding) -/

/-- The character of the decimal digit `d % 10`. -/
def digitChar (d : Nat) : Char := Char.ofNat (48 + d % 10)

/-- Fuel-driven decimal rendering, most significant digit first.
Structural recursion on the fuel so that concrete evaluation reduces
in the kernel. -/
def natStrAux : Nat → Nat → List Char
  | 0, _ => []
  | f + 1, n => if n < 10 then [digitChar n] else natStrAux f (n / 10) ++ [digitChar (n % 10)]

/-- The decimal digits of `n` (Go `%d` on a non-negative value). -/
def natStr (n : Nat) : List Char := natStrAux (n + 1) n

/-- Go `%d` on an `int`. -/
def intStr (i : Int) : List Char :=
  if i < 0 then '-' :: natStr (-i).toNat else natStr i.toNat

/-- Go's zero-padded 2-digit field (`Format "02"` / `"03"` / `"04"` / `"05"`). -/
def pad2 (n : Nat) : List Char := if n < 10 then '0' :: natStr n else natStr n

/-- Go's 4-digit year field (`Format "2006"`): zero-padded to width 4. -/
def pad4 (n : Nat) : List Char :=
  List.replicate (4 - (natStr n).length) '0' ++ natStr n

/-- `%02d` on an `int` (sign included in the width, as `fmt` does). -/
def intPad2 (i : Int) : List Char :=
  if 0 ≤ i ∧ i < 10 then '0' :: natStr i.toNat else intStr i

/-- `%-Ns`: left-justify by padding with spaces up to width `w`. -/
def padRightSp (w : Nat) (l : List Char) : List Char :=
  l ++ List.replicate (w - l.length) ' '

/-! ## String scanning primitives (`strings.Contains`, `SplitN`, `Split`, `TrimSpace`) -/

/-- `pat` is a prefix of `l` (Go byte-wise comparison). -/
def leadsWith : List Char → List Char → Bool
  | [], _ => true
  | _ :: _, [] => false
  | a :: as, b :: bs => a == b && leadsWith as bs

/-- `strings.Contains l pat`: `pat` occurs as a contiguous run in `l`. -/
def containsSeq (l pat : List Char) : Bool :=
  match l with
  | [] => pat.isEmpty
  | _ :: rest => leadsWith pat l || containsSeq rest pat

/-- Split at the first occurrence of `pat`: `strings.SplitN l pat 2`
when it returns two parts (`none` when `pat` does not occur). -/
def splitFirst (pat : List Char) : List Char → Option (List Char × List Char)
  | [] => if pat.isEmpty then some ([], []) else none
  | c :: rest =>
    if leadsWith pat (c :: rest) then some ([], (c :: rest).drop pat.length)
    else match splitFirst pat rest with
         | some (a, b) => some (c :: a, b)
         | none => none

/-- `strings.Split l pat` index 0: everything before the first
occurrence of `pat`, or all of `l` when `pat` does not occur. -/
def takeBefore (pat l : List Char) : List Char :=
  match splitFirst pat l with
  | some (a, _) => a
  | none => l

/-- The whitespace class `strings.TrimSpace` strips (the ASCII part of
`unicode.IsSpace`; only `' '` ever occurs in this file format). -/
def isSpaceChar (c : Char) : Bool :=
  c == ' ' || c == '\t' || c == '\n' || c == '\r'

/-- `strings.TrimSpace`. -/
def trimSpace (l : List Char) : List Char :=
  ((l.dropWhile isSpaceChar).reverse.dropWhile isSpaceChar).reverse

/-! ## The data model: `time.Time` at second precision and `session` -/

structure DateTime where
  year : Nat
  month : Nat
  day : Nat
  hour : Nat
  minute : Nat
  second : Nat
deriving DecidableEq

/-- The calendar-field ranges every Go `time.Time` instant satisfies
(year bounded so the 4-digit year field is faithful). -/
def ValidDT (t : DateTime) : Prop :=
  t.year ≤ 9999 ∧ 1 ≤ t.month ∧ t.month ≤ 12 ∧
  1 ≤ t.day ∧ t.day ≤ 31 ∧ t.hour < 24 ∧ t.minute < 60 ∧ t.second < 60

instance (t : DateTime) : Decidable (ValidDT t) := by unfold ValidDT; infer_instance

def isLeap (y : Nat) : Bool := (y % 4 == 0 && y % 100 != 0) || y % 400 == 0

/-- Days in a month (Go's `daysIn`). -/
def daysInMonth (y m : Nat) : Nat :=
  if m = 2 then (if isLeap y then 29 else 28)
  else if m = 4 ∨ m = 6 ∨ m = 9 ∨ m = 11 then 30
  else 31

/-- Stronger validity: the day also fits the month, as it does for
every `time.Time`. -/
def ValidDT' (t : DateTime) : Prop :=
  ValidDT t ∧ t.day ≤ daysInMonth t.year t.month

instance (t : DateTime) : Decidable (ValidDT' t) := by unfold ValidDT'; infer_instance

/-- Civil-calendar day number (days since 1970-01-01), the standard
`days_from_civil` linearization of the proleptic Gregorian calendar. -/
def daysFromCivil (y m d : Nat) : Int :=
  let yy : Int := if m ≤ 2 then (y : Int) - 1 else (y : Int)
  let era : Int := Int.fdiv yy 400
  let yoe : Int := yy - era * 400
  let mp : Nat := (m + 9) % 12
  let doy : Int := ((153 * mp + 2) / 5 : Nat) + (d : Int) - 1
  let doe : Int := yoe * 365 + Int.fdiv yoe 4 - Int.fdiv yoe 100 + doy
  era * 146097 + doe - 719468

/-- The instant of a `DateTime` in seconds (what `time.Time` measures,
up to the fixed epoch offset, which cancels in differences). -/
def toSecs (t : DateTime) : Int :=
  daysFromCivil t.year t.month t.day * 86400 +
    (t.hour : Int) * 3600 + (t.minute : Int) * 60 + (t.second : Int)

/-- `t2.Sub(t1)` in whole seconds. -/
def dtSub (t2 t1 : DateTime) : Int := toSecs t2 - toSecs t1

/-- Go `Weekday()`: 0 = Sunday.  1970-01-01 was a Thursday. -/
def weekdayOf (y m d : Nat) : Nat := ((daysFromCivil y m d + 4).emod 7).toNat

/-- A completed tracking interval (`session` in the source; Go's
`end` field is a Lean keyword, hence `endT`). -/
structure session where
  start : DateTime
  endT : DateTime
  duration : Int
deriving DecidableEq

def ValidSession (s : session) : Prop := ValidDT' s.start ∧ ValidDT' s.endT

instance (s : session) : Decidable (ValidSession s) := by
  unfold ValidSession; infer_instance

/-! ## Timestamp formatting (Go `time.Format`) -/

def longDayNames : List (List Char) :=
  [('S' :: "unday".data), ('M' :: "onday".data), ('T' :: "uesday".data),
   ('W' :: "ednesday".data), ('T' :: "hursday".data), ('F' :: "riday".data),
   ('S' :: "aturday".data)]

def longMonthNames : List (List Char) :=
  [('J' :: "anuary".data), ('F' :: "ebruary".data), ('M' :: "arch".data),
   ('A' :: "pril".data), ('M' :: "ay".data), ('J' :: "une".data),
   ('J' :: "uly".data), ('A' :: "ugust".data), ('S' :: "eptember".data),
   ('O' :: "ctober".data), ('N' :: "ovember".data), ('D' :: "ecember".data)]

def shortDayNames : List (List Char) :=
  [('S' :: "un".data), ('M' :: "on".data), ('T' :: "ue".data), ('W' :: "ed".data),
   ('T' :: "hu".data), ('F' :: "ri".data), ('S' :: "at".data)]

def shortMonthNames : List (List Char) :=
  [('J' :: "an".data), ('F' :: "eb".data), ('M' :: "ar".data), ('A' :: "pr".data),
   ('M' :: "ay".data), ('J' :: "un".data), ('J' :: "ul".data), ('A' :: "ug".data),
   ('S' :: "ep".data), ('O' :: "ct".data), ('N' :: "ov".data), ('D' :: "ec".data)]

/-- Long weekday name of weekday number `w` (0 = Sunday). -/
def dayName (w : Nat) : List Char := longDayNames.getD w []

/-- Long month name of month `m` (1 = January). -/
def monthName (m : Nat) : List Char := longMonthNames.getD (m - 1) []

def shortDayName (w : Nat) : List Char := shortDayNames.getD w []

def shortMonthName (m : Nat) : List Char := shortMonthNames.getD (m - 1) []

/-- `Format "03"`: hour on the 12-hour clock (12 at 0 and 12). -/
def hour12 (h : Nat) : Nat := if h % 12 = 0 then 12 else h % 12

/-- `Format "03:04:05 PM"`. -/
def fmtTime12 (h mi s : Nat) : List Char :=
  pad2 (hour12 h) ++ ':' :: pad2 mi ++ ':' :: pad2 s ++
    ' ' :: (if h < 12 then ['A', 'M'] else ['P', 'M'])

/-- `Format "Monday, January 02, 2006"` (the weekday written is the
true weekday of the date, as Go computes it). -/
def fmtLongDate (y m d : Nat) : List Char :=
  dayName (weekdayOf y m d) ++ ',' :: ' ' :: monthName m ++
    ' ' :: pad2 d ++ ',' :: ' ' :: pad4 y

/-- `Format "Mon Jan 02, 2006 at 03:04 PM"` (the `Generated:` stamp). -/
def fmtGenerated (t : DateTime) : List Char :=
  shortDayName (weekdayOf t.year t.month t.day) ++
    ' ' :: shortMonthName t.month ++ ' ' :: pad2 t.day ++ ',' :: ' ' :: pad4 t.year ++
    ' ' :: 'a' :: 't' :: ' ' :: pad2 (hour12 t.hour) ++ ':' :: pad2 t.minute ++
    ' ' :: (if t.hour < 12 then ['A', 'M'] else ['P', 'M'])

/-! ## `time.Parse` for the reader's layout -/

/-- Go's case-insensitive ASCII comparison used by name lookup. -/
def lowerGo (c : Char) : Char :=
  if 'A' ≤ c ∧ c ≤ 'Z' then Char.ofNat (c.toNat + 32) else c

def ciEq (a b : Char) : Bool := lowerGo a == lowerGo b

def ciLeads : List Char → List Char → Bool
  | [], _ => true
  | _ :: _, [] => false
  | a :: as, b :: bs => ciEq a b && ciLeads as bs

/-- `lookup`: try each name as a (case-insensitive) prefix, first
match wins; yields the name's index and the remaining input. -/
def lookupNameAux (names : List (List Char)) (i : Nat) (s : List Char) :
    Option (Nat × List Char) :=
  match names with
  | [] => none
  | n :: rest =>
    if ciLeads n s then some (i, s.drop n.length) else lookupNameAux rest (i + 1) s

/-- Consume an exact layout literal. -/
def consumeLit (lit s : List Char) : Option (List Char) :=
  if leadsWith lit s then some (s.drop lit.length) else none

/-- A fixed two-digit field (`getnum`, zero-padding mandatory). -/
def getNum2 : List Char → Option (Nat × List Char)
  | c1 :: c2 :: r =>
    if c1.isDigit && c2.isDigit
    then some ((c1.toNat - 48) * 10 + (c2.toNat - 48), r) else none
  | _ => none

/-- The four-digit year field. -/
def getNum4 : List Char → Option (Nat × List Char)
  | c1 :: c2 :: c3 :: c4 :: r =>
    if c1.isDigit && c2.isDigit && c3.isDigit && c4.isDigit
    then some ((((c1.toNat - 48) * 10 + (c2.toNat - 48)) * 10 + (c3.toNat - 48)) * 10
               + (c4.toNat - 48), r)
    else none
  | _ => none

/-- The `PM` layout element: exactly `"AM"` or `"PM"`. -/
def parseAMPM : List Char → Option (Bool × List Char)
  | 'A' :: 'M' :: r => some (false, r)
  | 'P' :: 'M' :: r => some (true, r)
  | _ => none

/-- The `"Monday, January 02, 2006"` half of the layout: weekday name
(value discarded, as Go discards it), literal `", "`, month name,
literal `" "`, 2-digit day, literal `", "`, 4-digit year.  Yields
`(year, month, day, rest)`. -/
def parseLongDate (s : List Char) : Option (Nat × Nat × Nat × List Char) :=
  match lookupNameAux longDayNames 0 s with
  | none => none
  | some (_, s1) =>
    match consumeLit [',', ' '] s1 with
    | none => none
    | some s2 =>
      match lookupNameAux longMonthNames 0 s2 with
      | none => none
      | some (mi0, s3) =>
        match consumeLit [' '] s3 with
        | none => none
        | some s4 =>
          match getNum2 s4 with
          | none => none
          | some (d, s5) =>
            match consumeLit [',', ' '] s5 with
            | none => none
            | some s6 =>
              match getNum4 s6 with
              | none => none
              | some (y, s7) => some (y, mi0 + 1, d, s7)

/-- The `"03:04:05 PM"` half of the layout, required to exhaust the
input: 12-hour clock with Go's range checks and AM/PM fix-up.  Yields
`(hour, minute, second)` on the 24-hour clock. -/
def parseClock (s : List Char) : Option (Nat × Nat × Nat) :=
  match getNum2 s with
  | none => none
  | some (h12, s1) =>
    if 12 < h12 then none else
    match consumeLit [':'] s1 with
    | none => none
    | some s2 =>
      match getNum2 s2 with
      | none => none
      | some (minu, s3) =>
        if 59 < minu then none else
        match consumeLit [':'] s3 with
        | none => none
        | some s4 =>
          match getNum2 s4 with
          | none => none
          | some (sec, s5) =>
            if 59 < sec then none else
            match consumeLit [' '] s5 with
            | none => none
            | some s6 =>
              match parseAMPM s6 with
              | none => none
              | some (pm, s7) =>
                if s7 = [] then
                  some ((if pm then (if h12 < 12 then h12 + 12 else h12)
                         else (if h12 = 12 then 0 else h12)), minu, sec)
                else none

/-- `time.Parse "Monday, January 02, 2006 03:04:05 PM"`, element by
element as Go's parse loop consumes it, including its range checks,
the 12-hour fix-up, and the final day-of-month validation. -/
def goTimeParse (s : List Char) : Option DateTime :=
  match parseLongDate s with
  | none => none
  | some (y, m, d, rest) =>
    match consumeLit [' '] rest with
    | none => none
    | some rest1 =>
      match parseClock rest1 with
      | none => none
      | some (hr, minu, sec) =>
        if 1 ≤ d ∧ d ≤ daysInMonth y m then some ⟨y, m, d, hr, minu, sec⟩ else none

/-! ## The duration formatters -/

/-- `formatDuration` (live timer, `"%02d:%02d:%02d"` once hours > 0,
else `"%02d:%02d"`); the duration is whole seconds. -/
def formatDuration (d : Int) : List Char :=
  if 0 < d.tdiv 3600
  then intPad2 (d.tdiv 3600) ++ ':' :: intPad2 ((d.tdiv 60).tmod 60) ++ ':' :: intPad2 (d.tmod 60)
  else intPad2 ((d.tdiv 60).tmod 60) ++ ':' :: intPad2 (d.tmod 60)

/-- `formatDurationLong` (`"1h 2m 5s"`, largest nonzero unit first). -/
def formatDurationLong (d : Int) : List Char :=
  if 0 < d.tdiv 3600
  then intStr (d.tdiv 3600) ++ 'h' :: ' ' :: intStr ((d.tdiv 60).tmod 60) ++ 'm' :: ' ' ::
       intStr (d.tmod 60) ++ ['s']
  else if 0 < (d.tdiv 60).tmod 60
  then intStr ((d.tdiv 60).tmod 60) ++ 'm' :: ' ' :: intStr (d.tmod 60) ++ ['s']
  else intStr (d.tmod 60) ++ ['s']

/-! ## The report writer (`saveHistory`) -/

/-- The ASCII-art banner block (first raw literal of `saveHistory`);
its leading newline contributes the empty line placed before it in
`headerLines`. -/
def barTop : Line := ' ' :: '╔' :: List.replicate 64 '═' ++ ['╗']

def barBot : Line := ' ' :: '╚' :: List.replicate 64 '═' ++ ['╝']

def bannerLines : List Line :=
  [barTop,
   (" ║                                                                ║").data,
   (" ║    ████████╗██╗███╗   ███╗███████╗                             ║").data,
   (" ║    ╚══██╔══╝██║████╗ ████║██╔════╝                             ║").data,
   (" ║       ██║   ██║██╔████╔██║█████╗                               ║").data,
   (" ║       ██║   ██║██║╚██╔╝██║██╔══╝                               ║").data,
   (" ║       ██║   ██║██║ ╚═╝ ██║███████╗                             ║").data,
   (" ║       ╚═╝   ╚═╝╚═╝     ╚═╝╚══════╝                             ║").data,
   (" ║                                                                ║").data,
   (" ║    ████████╗██████╗  █████╗  ██████╗██╗  ██╗███████╗██████╗    ║").data,
   (" ║    ╚══██╔══╝██╔══██╗██╔══██╗██╔════╝██║ ██╔╝██╔════╝██╔══██╗   ║").data,
   (" ║       ██║   ██████╔╝███████║██║     █████╔╝ █████╗  ██████╔╝   ║").data,
   (" ║       ██║   ██╔══██╗██╔══██║██║     ██╔═██╗ ██╔══╝  ██╔══██╗   ║").data,
   (" ║       ██║   ██║  ██║██║  ██║╚██████╗██║  ██╗███████╗██║  ██║   ║").data,
   (" ║       ╚═╝   ╚═╝  ╚═╝╚═╝  ╚═╝ ╚═════╝╚═╝  ╚═╝╚══════╝╚═╝  ╚═╝   ║").data,
   (" ║                                                                ║").data,
   barBot]

def histTop : Line := ' ' :: '┌' :: List.replicate 64 '─' ++ ['┐']

def histMid : Line :=
  (" │                      SESSION HISTORY                           │").data

def histBot : Line := ' ' :: '└' :: List.replicate 64 '─' ++ ['┘']

def footTop : Line := barTop

def footMid : Line :=
  (" ║                        END OF REPORT                           ║").data

def footBot : Line := barBot

/-- Everything `saveHistory` writes before the per-session blocks:
banner, `Generated:` stamp, session count, total time, and the
`SESSION HISTORY` section header. -/
def headerLines (now : DateTime) (count : Nat) (total : Int) : List Line :=
  [[]] ++ bannerLines ++
  [[], ("  Generated: ").data ++ fmtGenerated now,
   ("  Total Sessions: ").data ++ natStr count,
   ("  Total Time: ").data ++ formatDurationLong total,
   [], histTop, histMid, histBot]

def blockTop : Line := ("   ").data ++ '┌' :: List.replicate 42 '─' ++ ['┐']

def blockMid : Line := ("   ").data ++ '├' :: List.replicate 42 '─' ++ ['┤']

def blockBot : Line := ("   ").data ++ '└' :: List.replicate 42 '─' ++ ['┘']

def sessionNoPre : Line := ("   │  SESSION #").data

def sessionNoSuf : Line := ("                            │").data

def dateLinePre : Line := ("   │  Date:     ").data

def startLinePre : Line := ("   │  Start:    ").data

def endLinePre : Line := ("   │  End:      ").data

def durLinePre : Line := ("   │  Duration: ").data

def lineEndBar : Line := (" │").data

/-- One labelled value line of a record block (`"   │  Lbl: %-29s │"`). -/
def mkFieldLine (pre v : Line) : Line := pre ++ padRightSp 29 v ++ lineEndBar

/-- The `SESSION #%-3d` line of a record block. -/
def mkSessionNoLine (n : Nat) : Line := sessionNoPre ++ padRightSp 3 (natStr n) ++ sessionNoSuf

/-- The lines of the record block for session `s` at 0-based index `i`
(`fmt.Sprintf` of the block template; the template's leading newline
is the initial empty line). -/
def blockLines (i : Nat) (s : session) : List Line :=
  [[], blockTop, mkSessionNoLine (i + 1), blockMid,
   mkFieldLine dateLinePre (fmtLongDate s.start.year s.start.month s.start.day),
   mkFieldLine startLinePre (fmtTime12 s.start.hour s.start.minute s.start.second),
   mkFieldLine endLinePre (fmtTime12 s.endT.hour s.endT.minute s.endT.second),
   mkFieldLine durLinePre (formatDurationLong s.duration),
   blockBot]

/-- The record blocks of the sessions from 0-based index `i` on. -/
def blocksFrom (i : Nat) : List session → List Line
  | [] => []
  | s :: rest => blockLines i s ++ blocksFrom (i + 1) rest

def noSessionLines : List Line := [[], ("   No sessions recorded yet.").data]

def footerLines : List Line := [[], footTop, footMid, footBot]

/-- The `totalDuration` accumulation loop of `saveHistory`. -/
def sumDur (history : List session) : Int :=
  history.foldl (fun a s => a + s.duration) 0

/-- `saveHistory`, as the list of lines of the file it overwrites
(`time.Now()` is the `now` parameter). -/
def saveHistory (now : DateTime) (history : List session) : List Line :=
  headerLines now history.length (sumDur history) ++
  (if history = [] then noSessionLines else blocksFrom 0 history) ++
  footerLines

/-! ## The report reader (`loadHistory`) -/

def patSessionHash : Line := ("SESSION #").data

def patDate : Line := ("Date:").data

def patStart : Line := ("Start:").data

def patEnd : Line := ("End:").data

def patDashes : Line := ("──").data

def patClose : Line := ("└──").data

def patBar : Line := ("│").data

/-- Scanner state: `history` accumulated so far, `currentSession !=
nil` (whose fields are only ever written at finalisation, so a flag
suffices), and the three captured strings. -/
structure ScanState where
  history : List session
  pending : Bool
  dateStr : Line
  startStr : Line
  endStr : Line

/-- `if strings.Contains(line, "SESSION #") { currentSession =
&session{}; dateStr, startStr, endStr = "", "", "" }`. -/
def stepSessionHash (st : ScanState) (line : Line) : ScanState :=
  if containsSeq line patSessionHash
  then { st with pending := true, dateStr := [], startStr := [], endStr := [] }
  else st

/-- The `Date:` extraction: split after the label, cut at the border
`│`, trim. -/
def stepDate (st : ScanState) (line : Line) : ScanState :=
  if containsSeq line patDate then
    match splitFirst patDate line with
    | some p => { st with dateStr := trimSpace (takeBefore patBar p.2) }
    | none => st
  else st

/-- The `Start:` extraction, guarded against the border-drawing lines
(`!strings.Contains(line, "──")`). -/
def stepStart (st : ScanState) (line : Line) : ScanState :=
  if containsSeq line patStart && !containsSeq line patDashes then
    match splitFirst patStart line with
    | some p => { st with startStr := trimSpace (takeBefore patBar p.2) }
    | none => st
  else st

/-- The `End:` extraction. -/
def stepEnd (st : ScanState) (line : Line) : ScanState :=
  if containsSeq line patEnd then
    match splitFirst patEnd line with
    | some p => { st with endStr := trimSpace (takeBefore patBar p.2) }
    | none => st
  else st

/-- The closing-delimiter handler: with a pending record and all three
strings non-empty, parse `date + " " + start` and `date + " " + end`;
on double success append the finalised record with `duration`
recomputed from the parsed endpoints; either way drop the pending
record. -/
def stepClose (st : ScanState) (line : Line) : ScanState :=
  if containsSeq line patClose && st.pending &&
     !st.dateStr.isEmpty && !st.startStr.isEmpty && !st.endStr.isEmpty then
    match goTimeParse (st.dateStr ++ ' ' :: st.startStr),
          goTimeParse (st.dateStr ++ ' ' :: st.endStr) with
    | some t1, some t2 =>
      { st with history := st.history ++ [⟨t1, t2, dtSub t2 t1⟩], pending := false }
    | _, _ => { st with pending := false }
  else st

/-- One iteration of the scan loop: the five `if` statements in source
order (each reading the state the previous ones left). -/
def scanLine (st : ScanState) (line : Line) : ScanState :=
  stepClose (stepEnd (stepStart (stepDate (stepSessionHash st line) line) line) line) line

def initScan : ScanState := ⟨[], false, [], [], []⟩

/-- The scan of an opened file's lines. -/
def loadHistoryLines (lines : List Line) : List session :=
  (lines.foldl scanLine initScan).history

/-- `loadHistory`: `none` models any `os.Open` failure (file missing
or otherwise), which returns the empty history. -/
def loadHistory : Option (List Line) → List session
  | none => []
  | some ls => loadHistoryLines ls

/-- Every character of a long weekday or month name, plus `','` and
`' '`: the alphabet of the `Date:` field. -/
def dateChars : List Char := (", SundayMoTesWhrFitJbcApglmOoNvD").data

/-- The non-digit characters of the `Generated:` stamp. -/
def genChars : List Char := (", :atSunMoTeWdhFriJbAplgyOcNvDPM").data

/-- The session the reader reconstructs from a written block: the
start instant itself, the end-of-day time re-attached to the start's
calendar date, and the duration recomputed from those two. -/
def loadedOf (s : session) : session :=
  ⟨s.start,
   ⟨s.start.year, s.start.month, s.start.day, s.endT.hour, s.endT.minute, s.endT.second⟩,
   dtSub ⟨s.start.year, s.start.month, s.start.day, s.endT.hour, s.endT.minute, s.endT.second⟩
     s.start⟩

/-- The session's two endpoints fall on one calendar date. -/
def sameCalendarDay (s : session) : Prop :=
  s.endT.year = s.start.year ∧ s.endT.month = s.start.month ∧ s.endT.day = s.start.day

instance (s : session) : Decidable (sameCalendarDay s) := by
  unfold sameCalendarDay; infer_instance

/-! ## Facts about the scanning primitives -/

theorem leadsWith_append_self (l r : List Char) : leadsWith l (l ++ r) = true := by
  induction l with
  | nil => rfl
  | cons c t ih => simp [leadsWith, ih]

theorem leadsWith_iff {p l : List Char} : leadsWith p l = true ↔ p <+: l := by
  induction p generalizing l with
  | nil => simpa [leadsWith] using List.nil_prefix _
  | cons c t ih =>
    cases l with
    | nil => simp [leadsWith]
    | cons b bs =>
      simp only [leadsWith, Bool.and_eq_true, beq_iff_eq, ih, List.cons_prefix_cons]

theorem containsSeq_iff {l pat : List Char} : containsSeq l pat = true ↔ pat <:+: l := by
  induction l with
  | nil => simp [containsSeq, List.isEmpty_iff]
  | cons c rest ih =>
    simp only [containsSeq, Bool.or_eq_true, leadsWith_iff, ih, List.infix_cons_iff]

theorem infix_extend_right {p a : List Char} (b : List Char) (h : p <:+: a) :
    p <:+: a ++ b := by
  obtain ⟨u, v, huv⟩ := h
  exact ⟨u, v ++ b, by rw [← huv]; simp⟩

theorem infix_extend_left {p b : List Char} (a : List Char) (h : p <:+: b) :
    p <:+: a ++ b := by
  obtain ⟨u, v, huv⟩ := h
  exact ⟨a ++ u, v, by rw [← huv]; simp⟩

theorem contains_pre {pre pat rest : List Char} (h : containsSeq pre pat = true) :
    containsSeq (pre ++ rest) pat = true :=
  containsSeq_iff.mpr (infix_extend_right rest (containsSeq_iff.mp h))

theorem not_contains_char {l pat : List Char} (c : Char) (hc : c ∈ pat) (hl : c ∉ l) :
    containsSeq l pat = false := by
  cases h : containsSeq l pat with
  | false => rfl
  | true =>
    exact absurd (((containsSeq_iff.mp h).sublist).subset hc) hl

theorem not_contains_subpat {l p q : List Char} (hq : q <:+: p)
    (h : ¬ q <:+: l) : containsSeq l p = false := by
  cases hcp : containsSeq l p with
  | false => rfl
  | true => exact absurd (hq.trans (containsSeq_iff.mp hcp)) h

theorem two_infix {a b : Char} {l : List Char} (h : [a, b] <:+: l) :
    ∃ u w, l = u ++ a :: b :: w := by
  obtain ⟨u, w, huv⟩ := h
  exact ⟨u, w, by rw [← huv]; simp⟩

theorem not_pair_colon {t : Char} (hne : t ≠ ':') :
    ∀ A : List Char, ∀ {B : List Char}, ':' ∉ A → ':' ∉ B → A.getLast? ≠ some t →
    ¬ ([t, ':'] <:+: (A ++ ':' :: B)) := by
  intro A
  induction A with
  | nil =>
    intro B _ hB _ h
    obtain ⟨u, w, he⟩ := two_infix h
    cases u with
    | nil => simp at he; exact hne he.1.symm
    | cons x u' =>
      simp only [List.nil_append, List.cons.injEq, List.cons_append] at he
      exact hB (he.2 ▸ by simp)
  | cons a A' ih =>
    intro B hA hB hlast h
    obtain ⟨u, w, he⟩ := two_infix h
    cases u with
    | nil =>
      simp only [List.cons_append, List.nil_append, List.cons.injEq] at he
      obtain ⟨rfl, he2⟩ := he
      cases hA' : A' with
      | nil =>
        subst hA'
        simp only [List.nil_append, List.cons.injEq] at he2
        exact hlast (by simp)
      | cons a2 A'' =>
        subst hA'
        simp only [List.cons_append, List.cons.injEq] at he2
        exact hA (by simp [he2.1])
    | cons x u' =>
      simp only [List.cons_append, List.cons.injEq] at he
      have h' : [t, ':'] <:+: (A' ++ ':' :: B) := ⟨u', w, by rw [he.2]; simp⟩
      refine ih (fun hm => hA (List.mem_cons_of_mem _ hm)) hB ?_ h'
      intro hl
      apply hlast
      cases A' with
      | nil => simp at hl
      | cons a2 A'' =>
        rw [List.getLast?_cons_cons]
        exact hl

theorem splitFirst_at {pat : List Char} (c : Char) (hc : pat.head? = some c) :
    ∀ (pre : List Char) {post : List Char}, c ∉ pre →
    splitFirst pat (pre ++ pat ++ post) = some (pre, post) := by
  intro pre
  induction pre with
  | nil =>
    intro post _
    cases pat with
    | nil => exact Option.noConfusion hc
    | cons p pt =>
      simp only [List.head?_cons, Option.some.injEq] at hc
      simp only [List.nil_append, List.cons_append, splitFirst]
      rw [if_pos (by simpa [List.cons_append] using leadsWith_append_self (p :: pt) post)]
      simp [List.drop_left]
  | cons b pre' ih =>
    intro post hb
    cases pat with
    | nil => exact Option.noConfusion hc
    | cons p pt =>
      simp only [List.head?_cons, Option.some.injEq] at hc
      have hpb : p ≠ b := by
        intro he
        apply hb
        rw [← hc, he]
        exact List.mem_cons_self _ _
      simp only [List.cons_append, splitFirst, leadsWith]
      rw [if_neg (by simp [hpb])]
      have := @ih post (fun hm => hb (List.mem_cons_of_mem _ hm))
      simp only [List.cons_append, List.append_eq] at this ⊢
      rw [this]

theorem takeBefore_at {pat : List Char} (c : Char) (hc : pat.head? = some c)
    {pre post : List Char} (hpre : c ∉ pre) :
    takeBefore pat (pre ++ pat ++ post) = pre := by
  unfold takeBefore
  rw [splitFirst_at c hc pre hpre]

theorem dropWhile_append_all {p : Char → Bool} {u x : List Char}
    (hu : ∀ c ∈ u, p c = true) : (u ++ x).dropWhile p = x.dropWhile p := by
  induction u with
  | nil => rfl
  | cons c t ih =>
    simp only [List.cons_append, List.dropWhile_cons, hu c (by simp)]
    exact ih (fun d hd => hu d (by simp [hd]))

theorem dropWhile_of_head {p : Char → Bool} {x : List Char} {c : Char}
    (hx : x.head? = some c) (hc : p c = false) : x.dropWhile p = x := by
  cases x with
  | nil => simp at hx
  | cons b t =>
    simp only [List.head?_cons, Option.some.injEq] at hx
    simp [List.dropWhile_cons, hx ▸ hc]

theorem head?_append_left {s v : List Char} {c : Char} (h : s.head? = some c) :
    (s ++ v).head? = some c := by
  cases s with
  | nil => exact Option.noConfusion h
  | cons b t => simpa using h

theorem trimSpace_exact {u s v : List Char}
    (hu : ∀ x ∈ u, isSpaceChar x = true) (hv : ∀ x ∈ v, isSpaceChar x = true)
    (h1 : ∀ x, s.head? = some x → isSpaceChar x = false)
    (h2 : ∀ x, s.getLast? = some x → isSpaceChar x = false)
    (hs : s ≠ []) : trimSpace (u ++ s ++ v) = s := by
  obtain ⟨c, hc⟩ : ∃ c, s.head? = some c := by
    cases s with
    | nil => exact absurd rfl hs
    | cons b t => exact ⟨b, rfl⟩
  obtain ⟨d, hd⟩ : ∃ d, s.getLast? = some d := by
    cases hsr : s.reverse with
    | nil => exact absurd (List.reverse_eq_nil_iff.mp hsr) hs
    | cons b t => exact ⟨b, by rw [← List.head?_reverse, hsr]; rfl⟩
  have e1 : (u ++ (s ++ v)).dropWhile isSpaceChar = s ++ v := by
    rw [dropWhile_append_all hu]
    exact dropWhile_of_head (head?_append_left hc) (h1 c hc)
  have e2 : ((s ++ v).reverse).dropWhile isSpaceChar = s.reverse := by
    rw [List.reverse_append]
    rw [dropWhile_append_all (fun x hx => hv x (List.mem_reverse.mp hx))]
    exact dropWhile_of_head (by rw [List.head?_reverse]; exact hd) (h2 d hd)
  unfold trimSpace
  rw [List.append_assoc, e1, e2, List.reverse_reverse]

/-! ## Facts about decimal rendering -/

theorem digit_interval :
    ∀ e < 10, (Char.ofNat (48 + e)).isDigit = true ∧ (Char.ofNat (48 + e)).toNat = 48 + e := by
  decide

theorem digitChar_isDigit (x : Nat) : (digitChar x).isDigit = true := by
  have h : x % 10 < 10 := Nat.mod_lt _ (by norm_num)
  exact (digit_interval (x % 10) h).1

theorem digitChar_toNat (x : Nat) : (digitChar x).toNat = 48 + x % 10 := by
  have h : x % 10 < 10 := Nat.mod_lt _ (by norm_num)
  exact (digit_interval (x % 10) h).2

theorem natStrAux_stable : ∀ f g n, n < f → n < g → natStrAux f n = natStrAux g n := by
  intro f
  induction f with
  | zero => intro g n h; omega
  | succ f ih =>
    intro g n hf hg
    cases g with
    | zero => omega
    | succ g =>
      simp only [natStrAux]
      by_cases h10 : n < 10
      · simp [h10]
      · rw [if_neg h10, if_neg h10, ih g (n / 10) (by omega) (by omega)]

theorem natStr_eq (n : Nat) :
    natStr n = if n < 10 then [digitChar n] else natStr (n / 10) ++ [digitChar (n % 10)] := by
  by_cases h : n < 10
  · simp only [natStr, natStrAux, if_pos h]
  · rw [if_neg h]
    have hs : natStr (n / 10) = natStrAux n (n / 10) :=
      natStrAux_stable (n / 10 + 1) n (n / 10) (by omega) (by omega)
    rw [hs]
    show natStrAux (n + 1) n = _
    simp only [natStrAux]
    rw [if_neg h]

theorem natStr_digits : ∀ n, ∀ c ∈ natStr n, c.isDigit = true := by
  intro n
  induction n using Nat.strong_induction_on with
  | _ n ih =>
    intro c hc
    rw [natStr_eq] at hc
    by_cases h : n < 10
    · rw [if_pos h] at hc
      simp only [List.mem_singleton] at hc
      exact hc ▸ digitChar_isDigit n
    · rw [if_neg h] at hc
      rcases List.mem_append.mp hc with h1 | h1
      · exact ih (n / 10) (by omega) c h1
      · simp only [List.mem_singleton] at h1
        exact h1 ▸ digitChar_isDigit (n % 10)

theorem natStr_ne_nil (n : Nat) : natStr n ≠ [] := by
  rw [natStr_eq]
  by_cases h : n < 10 <;> simp [h]

theorem pad2_eq {n : Nat} (h : n < 100) :
    pad2 n = [digitChar (n / 10), digitChar (n % 10)] := by
  unfold pad2
  by_cases h10 : n < 10
  · rw [if_pos h10, natStr_eq, if_pos h10]
    have e1 : digitChar (n / 10) = '0' := by
      have : n / 10 = 0 := by omega
      rw [this]; decide
    have e2 : digitChar (n % 10) = digitChar n := by
      have : n % 10 = n := by omega
      rw [this]
    rw [e1, e2]
  · rw [if_neg h10, natStr_eq, if_neg h10, natStr_eq,
      if_pos (show n / 10 < 10 by omega)]
    rfl

theorem pad2_len2 {n : Nat} (h : n < 100) : (pad2 n).length = 2 := by
  rw [pad2_eq h]; rfl

theorem natStr_d1 {y : Nat} (h : y < 10) : natStr y = [digitChar y] := by
  rw [natStr_eq, if_pos h]

theorem natStr_d2 {y : Nat} (h1 : 10 ≤ y) (h2 : y < 100) :
    natStr y = [digitChar (y / 10), digitChar (y % 10)] := by
  rw [natStr_eq, if_neg (by omega), natStr_d1 (show y / 10 < 10 by omega)]
  rfl

theorem natStr_d3 {y : Nat} (h1 : 100 ≤ y) (h2 : y < 1000) :
    natStr y = [digitChar (y / 100), digitChar (y / 10 % 10), digitChar (y % 10)] := by
  rw [natStr_eq, if_neg (by omega),
    natStr_d2 (show 10 ≤ y / 10 by omega) (show y / 10 < 100 by omega)]
  have e1 : y / 10 / 10 = y / 100 := by omega
  rw [e1]
  rfl

theorem natStr_d4 {y : Nat} (h1 : 1000 ≤ y) (h2 : y < 10000) :
    natStr y = [digitChar (y / 1000), digitChar (y / 100 % 10),
                digitChar (y / 10 % 10), digitChar (y % 10)] := by
  rw [natStr_eq, if_neg (by omega),
    natStr_d3 (show 100 ≤ y / 10 by omega) (show y / 10 < 1000 by omega)]
  have e1 : y / 10 / 100 = y / 1000 := by omega
  have e2 : y / 10 / 10 % 10 = y / 100 % 10 := by omega
  rw [e1, e2]
  rfl

theorem getNum2_digitChars (a b : Nat) (r : List Char) :
    getNum2 ([digitChar a, digitChar b] ++ r) = some (a % 10 * 10 + b % 10, r) := by
  simp only [List.cons_append, List.nil_append, getNum2, digitChar_isDigit,
    Bool.and_self, if_true, digitChar_toNat, Option.some.injEq, Prod.mk.injEq]
  first
  | omega
  | exact ⟨by omega, trivial⟩
  | exact ⟨by omega, rfl⟩

theorem getNum4_digitChars (a b c d : Nat) (r : List Char) :
    getNum4 ([digitChar a, digitChar b, digitChar c, digitChar d] ++ r) =
      some (((a % 10 * 10 + b % 10) * 10 + c % 10) * 10 + d % 10, r) := by
  simp only [List.cons_append, List.nil_append, getNum4, digitChar_isDigit,
    Bool.and_self, if_true, digitChar_toNat, Option.some.injEq, Prod.mk.injEq]
  first
  | omega
  | exact ⟨by omega, trivial⟩
  | exact ⟨by omega, rfl⟩

theorem getNum2_pad2 {n : Nat} (h : n < 100) (r : List Char) :
    getNum2 (pad2 n ++ r) = some (n, r) := by
  rw [pad2_eq h, getNum2_digitChars]
  have e : n / 10 % 10 * 10 + n % 10 % 10 = n := by omega
  rw [e]

theorem zeroChar_eq : ('0' : Char) = digitChar 0 := by decide

theorem getNum4_pad4 {y : Nat} (h : y ≤ 9999) (r : List Char) :
    getNum4 (pad4 y ++ r) = some (y, r) := by
  unfold pad4
  by_cases h1 : y < 10
  · rw [natStr_d1 h1]
    have er : List.replicate (4 - ([digitChar y]).length) '0' =
        [digitChar 0, digitChar 0, digitChar 0] := by
      rw [zeroChar_eq]; rfl
    rw [er]
    have := getNum4_digitChars 0 0 0 y r
    simp only [List.cons_append, List.nil_append] at this ⊢
    rw [this]
    have e : ((0 % 10 * 10 + 0 % 10) * 10 + 0 % 10) * 10 + y % 10 = y := by omega
    rw [e]
  · by_cases h2 : y < 100
    · rw [natStr_d2 (by omega) h2]
      have er : List.replicate (4 - ([digitChar (y / 10), digitChar (y % 10)]).length) '0' =
          [digitChar 0, digitChar 0] := by
        rw [zeroChar_eq]; rfl
      rw [er]
      have := getNum4_digitChars 0 0 (y / 10) (y % 10) r
      simp only [List.cons_append, List.nil_append] at this ⊢
      rw [this]
      have e : ((0 % 10 * 10 + 0 % 10) * 10 + y / 10 % 10) * 10 + y % 10 % 10 = y := by omega
      rw [e]
    · by_cases h3 : y < 1000
      · rw [natStr_d3 (by omega) h3]
        have er : List.replicate
            (4 - ([digitChar (y / 100), digitChar (y / 10 % 10), digitChar (y % 10)]).length)
            '0' = [digitChar 0] := by
          rw [zeroChar_eq]; rfl
        rw [er]
        have := getNum4_digitChars 0 (y / 100) (y / 10 % 10) (y % 10) r
        simp only [List.cons_append, List.nil_append] at this ⊢
        rw [this]
        have e : ((0 % 10 * 10 + y / 100 % 10) * 10 + y / 10 % 10 % 10) * 10 + y % 10 % 10 = y := by
          omega
        rw [e]
      · rw [natStr_d4 (by omega) (by omega)]
        have er : List.replicate (4 - ([digitChar (y / 1000), digitChar (y / 100 % 10),
            digitChar (y / 10 % 10), digitChar (y % 10)]).length) '0' = [] := rfl
        rw [er]
        have := getNum4_digitChars (y / 1000) (y / 100 % 10) (y / 10 % 10) (y % 10) r
        simp only [List.cons_append, List.nil_append] at this ⊢
        rw [this]
        have e : ((y / 1000 % 10 * 10 + y / 100 % 10 % 10) * 10 + y / 10 % 10 % 10) * 10 +
            y % 10 % 10 = y := by omega
        rw [e]

/-! ## Facts about the layout parser on the writer's output -/

theorem consumeLit_cons1 (c : Char) (r : List Char) :
    consumeLit [c] (c :: r) = some r := by
  simp [consumeLit, leadsWith]

theorem consumeLit_cons2 (c d : Char) (r : List Char) :
    consumeLit [c, d] (c :: d :: r) = some r := by
  simp [consumeLit, leadsWith]

theorem weekdayOf_lt (y m d : Nat) : weekdayOf y m d < 7 := by
  unfold weekdayOf
  have h1 : 0 ≤ (daysFromCivil y m d + 4).emod 7 := Int.emod_nonneg _ (by norm_num)
  have h2 : (daysFromCivil y m d + 4).emod 7 < 7 := Int.emod_lt_of_pos _ (by norm_num)
  omega

theorem lookup_day {w : Nat} (hw : w < 7) (r : List Char) :
    lookupNameAux longDayNames 0 (dayName w ++ r) = some (w, r) := by
  interval_cases w <;> rfl

theorem lookup_month {m : Nat} (hm1 : 1 ≤ m) (hm2 : m ≤ 12) (r : List Char) :
    lookupNameAux longMonthNames 0 (monthName m ++ r) = some (m - 1, r) := by
  interval_cases m <;> rfl

theorem daysInMonth_le (y m : Nat) : daysInMonth y m ≤ 31 := by
  unfold daysInMonth
  split
  · split <;> omega
  · split <;> omega

theorem parseClock_fmt {h mi s : Nat} (hh : h < 24) (hmi : mi < 60) (hs : s < 60) :
    parseClock (fmtTime12 h mi s) = some (h, mi, s) := by
  have h12a : hour12 h < 100 := by unfold hour12; split <;> omega
  have h12b : ¬ 12 < hour12 h := by unfold hour12; split <;> omega
  unfold fmtTime12 parseClock
  simp only [List.append_assoc, List.cons_append, getNum2_pad2 h12a,
    getNum2_pad2 (show mi < 100 by omega),
    getNum2_pad2 (show s < 100 by omega), consumeLit_cons1, if_neg h12b,
    if_neg (show ¬ 59 < mi by omega), if_neg (show ¬ 59 < s by omega)]
  by_cases hlt : h < 12
  · have hfix : (if hour12 h = 12 then 0 else hour12 h) = h := by
      unfold hour12; split_ifs <;> omega
    simp [hlt, parseAMPM, hfix]
  · have hfix : (if hour12 h < 12 then hour12 h + 12 else hour12 h) = h := by
      unfold hour12; split_ifs <;> omega
    simp [hlt, parseAMPM, hfix]

theorem parseLongDate_fmt {y m d : Nat} (hy : y ≤ 9999) (hm1 : 1 ≤ m) (hm2 : m ≤ 12)
    (hd : d < 100) (r : List Char) :
    parseLongDate (fmtLongDate y m d ++ r) = some (y, m, d, r) := by
  unfold fmtLongDate parseLongDate
  simp only [List.append_assoc, List.cons_append]
  simp only [lookup_day (weekdayOf_lt y m d), consumeLit_cons2, lookup_month hm1 hm2,
    consumeLit_cons1, getNum2_pad2 hd, getNum4_pad4 hy]
  have e : m - 1 + 1 = m := by omega
  rw [e]

theorem goTimeParse_fmt {y m d h mi s : Nat} (hy : y ≤ 9999) (hm1 : 1 ≤ m)
    (hm2 : m ≤ 12) (hd1 : 1 ≤ d) (hd2 : d ≤ daysInMonth y m)
    (hh : h < 24) (hmi : mi < 60) (hs : s < 60) :
    goTimeParse (fmtLongDate y m d ++ ' ' :: fmtTime12 h mi s) = some ⟨y, m, d, h, mi, s⟩ := by
  unfold goTimeParse
  simp only [parseLongDate_fmt hy hm1 hm2 (show d < 100 by
    have := daysInMonth_le y m; omega), consumeLit_cons1, parseClock_fmt hh hmi hs]
  rw [if_pos ⟨hd1, hd2⟩]

/-! ## Character inventories of the writer's variable fields -/

theorem mem_names_getD {names : List (List Char)} {k : Nat} {c : Char} {pool : List Char}
    (hnames : ∀ n ∈ names, ∀ x ∈ n, x ∈ pool) (h : c ∈ names.getD k []) : c ∈ pool := by
  rcases Nat.lt_or_ge k names.length with hk | hk
  · rw [List.getD_eq_getElem names [] hk] at h
    exact hnames _ (List.getElem_mem hk) c h
  · rw [List.getD_eq_default names [] hk] at h
    cases h

theorem mem_dayName {w : Nat} {c : Char} (h : c ∈ dayName w) : c ∈ dateChars :=
  mem_names_getD (by decide) h

theorem mem_monthName {m : Nat} {c : Char} (h : c ∈ monthName m) : c ∈ dateChars :=
  mem_names_getD (by decide) h

theorem mem_shortDayName {w : Nat} {c : Char} (h : c ∈ shortDayName w) : c ∈ genChars :=
  mem_names_getD (by decide) h

theorem mem_shortMonthName {m : Nat} {c : Char} (h : c ∈ shortMonthName m) : c ∈ genChars :=
  mem_names_getD (by decide) h

theorem mem_pad2 {c : Char} {n : Nat} (h : c ∈ pad2 n) : c.isDigit = true := by
  unfold pad2 at h
  split at h
  · rcases List.mem_cons.mp h with rfl | h1
    · decide
    · exact natStr_digits n c h1
  · exact natStr_digits n c h

theorem mem_pad4 {c : Char} {n : Nat} (h : c ∈ pad4 n) : c.isDigit = true := by
  unfold pad4 at h
  rcases List.mem_append.mp h with h1 | h1
  · rw [List.eq_of_mem_replicate h1]; decide
  · exact natStr_digits n c h1

theorem mem_intStr {c : Char} {i : Int} (h : c ∈ intStr i) :
    c.isDigit = true ∨ c = '-' := by
  unfold intStr at h
  split at h
  · rcases List.mem_cons.mp h with rfl | h1
    · exact Or.inr rfl
    · exact Or.inl (natStr_digits _ c h1)
  · exact Or.inl (natStr_digits _ c h)

theorem mem_fmtLongDate {c : Char} {y m d : Nat} (h : c ∈ fmtLongDate y m d) :
    c.isDigit = true ∨ c ∈ dateChars := by
  unfold fmtLongDate at h
  simp only [List.mem_append, List.mem_cons] at h
  rcases h with ((h1 | (rfl | (rfl | h1))) | (rfl | h1)) | (rfl | (rfl | h1))
  · exact Or.inr (mem_dayName h1)
  · exact Or.inr (by decide)
  · exact Or.inr (by decide)
  · exact Or.inr (mem_monthName h1)
  · exact Or.inr (by decide)
  · exact Or.inl (mem_pad2 h1)
  · exact Or.inr (by decide)
  · exact Or.inr (by decide)
  · exact Or.inl (mem_pad4 h1)

theorem mem_fmtTime12 {c : Char} {h mi s : Nat} (hm : c ∈ fmtTime12 h mi s) :
    c.isDigit = true ∨ c ∈ ([':', ' ', 'A', 'P', 'M'] : List Char) := by
  unfold fmtTime12 at hm
  simp only [List.mem_append, List.mem_cons] at hm
  rcases hm with ((h1 | (rfl | h1)) | (rfl | h1)) | (rfl | h1)
  · exact Or.inl (mem_pad2 h1)
  · exact Or.inr (by decide)
  · exact Or.inl (mem_pad2 h1)
  · exact Or.inr (by decide)
  · exact Or.inl (mem_pad2 h1)
  · exact Or.inr (by decide)
  · split at h1 <;> simp only [List.mem_cons, List.not_mem_nil, or_false] at h1 <;>
      rcases h1 with rfl | rfl <;> exact Or.inr (by decide)

theorem mem_formatDurationLong {c : Char} {i : Int} (h : c ∈ formatDurationLong i) :
    c.isDigit = true ∨ c ∈ (['-', 'h', 'm', 's', ' '] : List Char) := by
  unfold formatDurationLong at h
  split at h
  · simp only [List.mem_append, List.mem_cons] at h
    rcases h with ((h1 | (rfl | (rfl | h1))) | (rfl | (rfl | h1))) | (rfl | h1)
    · rcases mem_intStr h1 with h2 | rfl
      · exact Or.inl h2
      · exact Or.inr (by decide)
    · exact Or.inr (by decide)
    · exact Or.inr (by decide)
    · rcases mem_intStr h1 with h2 | rfl
      · exact Or.inl h2
      · exact Or.inr (by decide)
    · exact Or.inr (by decide)
    · exact Or.inr (by decide)
    · rcases mem_intStr h1 with h2 | rfl
      · exact Or.inl h2
      · exact Or.inr (by decide)
    · exact Or.inr (by decide)
    · cases h1
  · split at h
    · simp only [List.mem_append, List.mem_cons] at h
      rcases h with (h1 | (rfl | (rfl | h1))) | (rfl | h1)
      · rcases mem_intStr h1 with h2 | rfl
        · exact Or.inl h2
        · exact Or.inr (by decide)
      · exact Or.inr (by decide)
      · exact Or.inr (by decide)
      · rcases mem_intStr h1 with h2 | rfl
        · exact Or.inl h2
        · exact Or.inr (by decide)
      · exact Or.inr (by decide)
      · cases h1
    · simp only [List.mem_append, List.mem_cons] at h
      rcases h with h1 | (rfl | h1)
      · rcases mem_intStr h1 with h2 | rfl
        · exact Or.inl h2
        · exact Or.inr (by decide)
      · exact Or.inr (by decide)
      · cases h1

theorem mem_fmtGenerated {c : Char} {t : DateTime} (h : c ∈ fmtGenerated t) :
    c.isDigit = true ∨ c ∈ genChars := by
  unfold fmtGenerated at h
  simp only [List.mem_append, List.mem_cons] at h
  rcases h with ((((((h1 | (rfl | h1)) | (rfl | h1)) | (rfl | (rfl | h1))) |
      (rfl | (rfl | (rfl | (rfl | h1))))) | (rfl | h1)) | (rfl | h1))
  · exact Or.inr (mem_shortDayName h1)
  · exact Or.inr (by decide)
  · exact Or.inr (mem_shortMonthName h1)
  · exact Or.inr (by decide)
  · exact Or.inl (mem_pad2 h1)
  · exact Or.inr (by decide)
  · exact Or.inr (by decide)
  · exact Or.inl (mem_pad4 h1)
  · exact Or.inr (by decide)
  · exact Or.inr (by decide)
  · exact Or.inr (by decide)
  · exact Or.inr (by decide)
  · exact Or.inl (mem_pad2 h1)
  · exact Or.inr (by decide)
  · exact Or.inl (mem_pad2 h1)
  · exact Or.inr (by decide)
  · split at h1 <;> simp only [List.mem_cons, List.not_mem_nil, or_false] at h1 <;>
      rcases h1 with rfl | rfl <;> exact Or.inr (by decide)

/-! ## Head, last and exclusion facts about the variable fields -/

theorem space_cases {c : Char} (h : isSpaceChar c = true) :
    c = ' ' ∨ c = '\t' ∨ c = '\n' ∨ c = '\r' := by
  unfold isSpaceChar at h
  simp only [Bool.or_eq_true, beq_iff_eq] at h
  tauto

theorem digit_not_space {c : Char} (h : c.isDigit = true) : isSpaceChar c = false := by
  cases hsp : isSpaceChar c
  · rfl
  · rcases space_cases hsp with rfl | rfl | rfl | rfl <;> exact absurd h (by decide)

theorem getLast?_append_right {a b : List Char} {c : Char} (hb : b.getLast? = some c) :
    (a ++ b).getLast? = some c := by
  rw [← List.head?_reverse, List.reverse_append]
  exact head?_append_left (by rw [List.head?_reverse]; exact hb)

theorem natStr_no {n : Nat} {c : Char} (hdig : c.isDigit = false) : c ∉ natStr n := by
  intro h
  rw [natStr_digits n c h] at hdig
  exact Bool.noConfusion hdig

theorem fmtLongDate_no {y m d : Nat} {c : Char} (hdig : c.isDigit = false)
    (hpool : c ∉ dateChars) : c ∉ fmtLongDate y m d := by
  intro h
  rcases mem_fmtLongDate h with h1 | h1
  · rw [h1] at hdig; exact Bool.noConfusion hdig
  · exact hpool h1

theorem fmtTime12_no {h mi s : Nat} {c : Char} (hdig : c.isDigit = false)
    (hpool : c ∉ ([':', ' ', 'A', 'P', 'M'] : List Char)) : c ∉ fmtTime12 h mi s := by
  intro hm
  rcases mem_fmtTime12 hm with h1 | h1
  · rw [h1] at hdig; exact Bool.noConfusion hdig
  · exact hpool h1

theorem formatDurationLong_no {i : Int} {c : Char} (hdig : c.isDigit = false)
    (hpool : c ∉ (['-', 'h', 'm', 's', ' '] : List Char)) : c ∉ formatDurationLong i := by
  intro hm
  rcases mem_formatDurationLong hm with h1 | h1
  · rw [h1] at hdig; exact Bool.noConfusion hdig
  · exact hpool h1

theorem fmtGenerated_no {t : DateTime} {c : Char} (hdig : c.isDigit = false)
    (hpool : c ∉ genChars) : c ∉ fmtGenerated t := by
  intro hm
  rcases mem_fmtGenerated hm with h1 | h1
  · rw [h1] at hdig; exact Bool.noConfusion hdig
  · exact hpool h1

theorem dayName_head {w : Nat} (hw : w < 7) :
    ∃ c t, dayName w = c :: t ∧ isSpaceChar c = false := by
  interval_cases w <;> exact ⟨_, _, rfl, by decide⟩

theorem fmtLongDate_ne_nil (y m d : Nat) : fmtLongDate y m d ≠ [] := by
  obtain ⟨c, t, he, _⟩ := dayName_head (weekdayOf_lt y m d)
  unfold fmtLongDate
  rw [he]
  simp

theorem fmtLongDate_head (y m d : Nat) :
    ∀ x, (fmtLongDate y m d).head? = some x → isSpaceChar x = false := by
  intro x hx
  obtain ⟨c, t, he, hsp⟩ := dayName_head (weekdayOf_lt y m d)
  unfold fmtLongDate at hx
  rw [he] at hx
  rw [head?_append_left (head?_append_left (head?_append_left
    (show ((c :: t) : List Char).head? = some c from rfl)))] at hx
  injection hx with hx
  rw [← hx]
  exact hsp

theorem natStr_last (n : Nat) : ∃ c, (natStr n).getLast? = some c ∧ c.isDigit = true := by
  cases hr : (natStr n).reverse with
  | nil => exact absurd (List.reverse_eq_nil_iff.mp hr) (natStr_ne_nil n)
  | cons c t =>
    refine ⟨c, ?_, ?_⟩
    · rw [← List.head?_reverse, hr]; rfl
    · exact natStr_digits n c (by rw [← List.mem_reverse, hr]; simp)

theorem fmtLongDate_last (y m d : Nat) :
    ∀ x, (fmtLongDate y m d).getLast? = some x → isSpaceChar x = false := by
  intro x hx
  obtain ⟨c, hcl, hcd⟩ := natStr_last y
  have hp4 : (pad4 y).getLast? = some c := getLast?_append_right hcl
  have hl : (fmtLongDate y m d).getLast? = some c := by
    unfold fmtLongDate
    exact getLast?_append_right
      (show ((',' :: ' ' :: pad4 y) : List Char).getLast? = some c from
        @getLast?_append_right [',', ' '] _ _ hp4)
  rw [hl] at hx
  injection hx with hx
  rw [← hx]
  exact digit_not_space hcd

theorem pad2_head (n : Nat) : ∃ c t, pad2 n = c :: t ∧ c.isDigit = true := by
  unfold pad2
  split
  · exact ⟨'0', _, rfl, by decide⟩
  · cases hn : natStr n with
    | nil => exact absurd hn (natStr_ne_nil n)
    | cons c t =>
      exact ⟨c, t, rfl, natStr_digits n c (by rw [hn]; simp)⟩

theorem fmtTime12_ne_nil (h mi s : Nat) : fmtTime12 h mi s ≠ [] := by
  obtain ⟨c, t, he, _⟩ := pad2_head (hour12 h)
  unfold fmtTime12
  rw [he]
  simp

theorem fmtTime12_head (h mi s : Nat) :
    ∀ x, (fmtTime12 h mi s).head? = some x → isSpaceChar x = false := by
  intro x hx
  obtain ⟨c, t, he, hcd⟩ := pad2_head (hour12 h)
  unfold fmtTime12 at hx
  rw [he] at hx
  rw [head?_append_left (head?_append_left (head?_append_left
    (show ((c :: t) : List Char).head? = some c from rfl)))] at hx
  injection hx with hx
  rw [← hx]
  exact digit_not_space hcd

theorem fmtTime12_last (h mi s : Nat) : (fmtTime12 h mi s).getLast? = some 'M' := by
  unfold fmtTime12
  apply getLast?_append_right
  show ((' ' :: if h < 12 then (['A', 'M'] : List Char) else ['P', 'M'])).getLast? = some 'M'
  split <;> rfl

/-! ## Behaviour of one scan step on each shape of line -/

theorem stepSessionHash_pos {st : ScanState} {line : Line}
    (h : containsSeq line patSessionHash = true) :
    stepSessionHash st line =
      { st with pending := true, dateStr := [], startStr := [], endStr := [] } := by
  simp [stepSessionHash, h]

theorem stepSessionHash_neg {st : ScanState} {line : Line}
    (h : containsSeq line patSessionHash = false) : stepSessionHash st line = st := by
  simp [stepSessionHash, h]

theorem stepDate_neg {st : ScanState} {line : Line}
    (h : containsSeq line patDate = false) : stepDate st line = st := by
  simp [stepDate, h]

theorem stepStart_neg {st : ScanState} {line : Line}
    (h : containsSeq line patStart = false) : stepStart st line = st := by
  simp [stepStart, h]

theorem stepStart_neg2 {st : ScanState} {line : Line}
    (h : containsSeq line patDashes = true) : stepStart st line = st := by
  simp [stepStart, h]

theorem stepEnd_neg {st : ScanState} {line : Line}
    (h : containsSeq line patEnd = false) : stepEnd st line = st := by
  simp [stepEnd, h]

theorem stepClose_neg {st : ScanState} {line : Line}
    (h : containsSeq line patClose = false) : stepClose st line = st := by
  simp [stepClose, h]

theorem stepClose_notPending {st : ScanState} {line : Line}
    (hp : st.pending = false) : stepClose st line = st := by
  simp [stepClose, hp]

theorem scanLine_skip {st : ScanState} {line : Line}
    (h1 : containsSeq line patSessionHash = false)
    (h2 : containsSeq line patDate = false)
    (h3 : containsSeq line patStart = false)
    (h4 : containsSeq line patEnd = false)
    (h5 : containsSeq line patClose = false) : scanLine st line = st := by
  unfold scanLine
  rw [stepSessionHash_neg h1, stepDate_neg h2, stepStart_neg h3, stepEnd_neg h4,
    stepClose_neg h5]

theorem stepDate_same (st : ScanState) (l : Line) :
    (stepDate st l).history = st.history ∧ (stepDate st l).pending = st.pending := by
  unfold stepDate
  split
  · split
    · exact ⟨rfl, rfl⟩
    · exact ⟨rfl, rfl⟩
  · exact ⟨rfl, rfl⟩

theorem stepStart_same (st : ScanState) (l : Line) :
    (stepStart st l).history = st.history ∧ (stepStart st l).pending = st.pending := by
  unfold stepStart
  split
  · split
    · exact ⟨rfl, rfl⟩
    · exact ⟨rfl, rfl⟩
  · exact ⟨rfl, rfl⟩

theorem stepEnd_same (st : ScanState) (l : Line) :
    (stepEnd st l).history = st.history ∧ (stepEnd st l).pending = st.pending := by
  unfold stepEnd
  split
  · split
    · exact ⟨rfl, rfl⟩
    · exact ⟨rfl, rfl⟩
  · exact ⟨rfl, rfl⟩

theorem scanLine_benign {st : ScanState} {line : Line} (hp : st.pending = false)
    (h : containsSeq line patSessionHash = false) :
    (scanLine st line).history = st.history ∧ (scanLine st line).pending = false := by
  unfold scanLine
  rw [stepSessionHash_neg h]
  obtain ⟨hd1, hd2⟩ := stepDate_same st line
  obtain ⟨hs1, hs2⟩ := stepStart_same (stepDate st line) line
  obtain ⟨he1, he2⟩ := stepEnd_same (stepStart (stepDate st line) line) line
  have hp3 : (stepEnd (stepStart (stepDate st line) line) line).pending = false := by
    rw [he2, hs2, hd2, hp]
  rw [stepClose_notPending hp3]
  rw [he1, hs1, hd1, hp3]
  exact ⟨rfl, rfl⟩

theorem stepDate_pos {st : ScanState} {line : Line} {a b : List Char}
    (hc : containsSeq line patDate = true)
    (hs : splitFirst patDate line = some (a, b)) :
    stepDate st line = { st with dateStr := trimSpace (takeBefore patBar b) } := by
  simp only [stepDate, hc, hs, if_true]

theorem stepStart_pos {st : ScanState} {line : Line} {a b : List Char}
    (hc : containsSeq line patStart = true)
    (hd : containsSeq line patDashes = false)
    (hs : splitFirst patStart line = some (a, b)) :
    stepStart st line = { st with startStr := trimSpace (takeBefore patBar b) } := by
  simp only [stepStart, hc, hd, hs, Bool.not_false, Bool.and_self, if_true]

theorem stepEnd_pos {st : ScanState} {line : Line} {a b : List Char}
    (hc : containsSeq line patEnd = true)
    (hs : splitFirst patEnd line = some (a, b)) :
    stepEnd st line = { st with endStr := trimSpace (takeBefore patBar b) } := by
  simp only [stepEnd, hc, hs, if_true]

theorem not_mem_mkFieldLine {c : Char} {pre v : List Char}
    (hpre : c ∉ pre) (hv : c ∉ v) (hsp : c ≠ ' ') (hbar : c ≠ '│') :
    c ∉ mkFieldLine pre v := by
  unfold mkFieldLine padRightSp lineEndBar
  intro h
  simp only [List.mem_append, List.mem_cons, List.not_mem_nil, or_false,
    String.data] at h
  rcases h with (h | (h | h)) | h
  · exact hpre h
  · exact hv h
  · exact hsp (List.eq_of_mem_replicate h)
  · rcases h with rfl | rfl
    · exact hsp rfl
    · exact hbar rfl

theorem not_mem_sessionNoLine {c : Char} {n : Nat} (hpre : c ∉ sessionNoPre)
    (hdig : c.isDigit = false) (hsp : c ≠ ' ') (hsuf : c ∉ sessionNoSuf) :
    c ∉ mkSessionNoLine n := by
  unfold mkSessionNoLine padRightSp
  intro h
  simp only [List.mem_append] at h
  rcases h with (h | (h | h)) | h
  · exact hpre h
  · exact natStr_no hdig h
  · exact hsp (List.eq_of_mem_replicate h)
  · exact hsuf h

/-! ## The scan of each line the writer emits -/

theorem takeBefore_field {v : List Char} (hbar : '│' ∉ v) (sp : List Char)
    (hsp : '│' ∉ sp) :
    takeBefore patBar (sp ++ (padRightSp 29 v ++ lineEndBar)) =
      sp ++ v ++ (List.replicate (29 - v.length) ' ' ++ [' ']) := by
  have e1 : lineEndBar = [' ', '│'] := rfl
  have e2 : patBar = ['│'] := rfl
  have hB : sp ++ (padRightSp 29 v ++ lineEndBar) =
      (sp ++ v ++ (List.replicate (29 - v.length) ' ' ++ [' '])) ++ patBar ++ [] := by
    rw [e1, e2]
    simp [padRightSp, List.append_assoc]
  rw [hB]
  apply takeBefore_at '│' (show patBar.head? = some '│' from rfl)
  intro h
  simp only [List.mem_append] at h
  rcases h with (h | h) | (h | h)
  · exact hsp h
  · exact hbar h
  · exact absurd (List.eq_of_mem_replicate h) (by decide)
  · exact absurd h (by decide)

theorem trim_field {v : List Char} (h1 : ∀ x, v.head? = some x → isSpaceChar x = false)
    (h2 : ∀ x, v.getLast? = some x → isSpaceChar x = false) (h3 : v ≠ [])
    (sp : List Char) (hsp : ∀ x ∈ sp, isSpaceChar x = true) :
    trimSpace (sp ++ v ++ (List.replicate (29 - v.length) ' ' ++ [' '])) = v := by
  apply trimSpace_exact hsp ?_ h1 h2 h3
  intro x hx
  rcases List.mem_append.mp hx with h | h
  · rw [List.eq_of_mem_replicate h]; rfl
  · rcases List.mem_cons.mp h with rfl | h'
    · rfl
    · cases h'

theorem scan_emptyLine (st : ScanState) : scanLine st ([] : Line) = st :=
  scanLine_skip (by decide) (by decide) (by decide) (by decide) (by decide)

theorem scan_blockTop (st : ScanState) : scanLine st blockTop = st :=
  scanLine_skip (by decide) (by decide) (by decide) (by decide) (by decide)

theorem scan_blockMid (st : ScanState) : scanLine st blockMid = st :=
  scanLine_skip (by decide) (by decide) (by decide) (by decide) (by decide)

theorem scan_sessionNoLine (st : ScanState) (n : Nat) :
    scanLine st (mkSessionNoLine n) =
      { st with pending := true, dateStr := [], startStr := [], endStr := [] } := by
  have hhash : containsSeq (mkSessionNoLine n) patSessionHash = true := by
    apply containsSeq_iff.mpr
    exact infix_extend_right _ (infix_extend_right _ ⟨("   │  ").data, [], by decide⟩)
  have hcolon : ∀ pt : Line, ':' ∈ pt → containsSeq (mkSessionNoLine n) pt = false := by
    intro pt hpt
    exact not_contains_char ':' hpt
      (not_mem_sessionNoLine (by decide) (by decide) (by decide) (by decide))
  have hclose : containsSeq (mkSessionNoLine n) patClose = false :=
    not_contains_char '└' (by decide)
      (not_mem_sessionNoLine (by decide) (by decide) (by decide) (by decide))
  unfold scanLine
  rw [stepSessionHash_pos hhash, stepDate_neg (hcolon patDate (by decide)),
    stepStart_neg (hcolon patStart (by decide)), stepEnd_neg (hcolon patEnd (by decide)),
    stepClose_neg hclose]

theorem scan_dateLine (st : ScanState) (y m d : Nat) :
    scanLine st (mkFieldLine dateLinePre (fmtLongDate y m d)) =
      { st with dateStr := fmtLongDate y m d } := by
  have hv_colon : ':' ∉ fmtLongDate y m d := fmtLongDate_no (by decide) (by decide)
  have hv_hash : '#' ∉ fmtLongDate y m d := fmtLongDate_no (by decide) (by decide)
  have hv_E : 'E' ∉ fmtLongDate y m d := fmtLongDate_no (by decide) (by decide)
  have hv_bar : '│' ∉ fmtLongDate y m d := fmtLongDate_no (by decide) (by decide)
  have hv_cl : '└' ∉ fmtLongDate y m d := fmtLongDate_no (by decide) (by decide)
  have hhash : containsSeq (mkFieldLine dateLinePre (fmtLongDate y m d)) patSessionHash = false :=
    not_contains_char '#' (by decide)
      (not_mem_mkFieldLine (by decide) hv_hash (by decide) (by decide))
  have hend : containsSeq (mkFieldLine dateLinePre (fmtLongDate y m d)) patEnd = false :=
    not_contains_char 'E' (by decide)
      (not_mem_mkFieldLine (by decide) hv_E (by decide) (by decide))
  have hclose : containsSeq (mkFieldLine dateLinePre (fmtLongDate y m d)) patClose = false :=
    not_contains_char '└' (by decide)
      (not_mem_mkFieldLine (by decide) hv_cl (by decide) (by decide))
  have hline2 : mkFieldLine dateLinePre (fmtLongDate y m d) =
      ("   │  Date").data ++ ':' ::
        (("     ").data ++ (padRightSp 29 (fmtLongDate y m d) ++ lineEndBar)) := by
    unfold mkFieldLine
    rw [show dateLinePre = ("   │  Date").data ++ ':' :: ("     ").data from rfl]
    simp [List.append_assoc]
  have hstart : containsSeq (mkFieldLine dateLinePre (fmtLongDate y m d)) patStart = false := by
    apply @not_contains_subpat _ _ (['t', ':']) ⟨("Star").data, [], by decide⟩
    rw [hline2]
    apply not_pair_colon (by decide) (("   │  Date").data) (by decide) ?_ (by decide)
    intro h
    simp only [padRightSp, List.mem_append] at h
    rcases h with h | (h | h) | h
    · exact absurd h (by decide)
    · exact hv_colon h
    · exact absurd (List.eq_of_mem_replicate h) (by decide)
    · exact absurd h (by decide)
  have hsplit : mkFieldLine dateLinePre (fmtLongDate y m d) =
      ("   │  ").data ++ patDate ++
        (("     ").data ++ (padRightSp 29 (fmtLongDate y m d) ++ lineEndBar)) := by
    unfold mkFieldLine
    rw [show dateLinePre = ("   │  ").data ++ patDate ++ ("     ").data from rfl]
    simp [List.append_assoc]
  have hcont : containsSeq (mkFieldLine dateLinePre (fmtLongDate y m d)) patDate = true := by
    rw [hsplit]
    exact containsSeq_iff.mpr ⟨_, _, rfl⟩
  have hsf : splitFirst patDate (mkFieldLine dateLinePre (fmtLongDate y m d)) =
      some (("   │  ").data,
        ("     ").data ++ (padRightSp 29 (fmtLongDate y m d) ++ lineEndBar)) := by
    rw [hsplit]
    exact splitFirst_at 'D' (show patDate.head? = some 'D' from rfl) _ (by decide)
  unfold scanLine
  rw [stepSessionHash_neg hhash, stepDate_pos hcont hsf,
    takeBefore_field hv_bar _ (by decide),
    trim_field (fmtLongDate_head y m d) (fmtLongDate_last y m d) (fmtLongDate_ne_nil y m d)
      _ (by decide),
    stepStart_neg hstart, stepEnd_neg hend, stepClose_neg hclose]

theorem fmtTime12_last_nospace (h mi s : Nat) :
    ∀ x, (fmtTime12 h mi s).getLast? = some x → isSpaceChar x = false := by
  intro x hx
  rw [fmtTime12_last h mi s] at hx
  injection hx with hx
  rw [← hx]
  rfl

theorem scan_startLine (st : ScanState) (h mi s : Nat) :
    scanLine st (mkFieldLine startLinePre (fmtTime12 h mi s)) =
      { st with startStr := fmtTime12 h mi s } := by
  have hv_D : 'D' ∉ fmtTime12 h mi s := fmtTime12_no (by decide) (by decide)
  have hv_E : 'E' ∉ fmtTime12 h mi s := fmtTime12_no (by decide) (by decide)
  have hv_hash : '#' ∉ fmtTime12 h mi s := fmtTime12_no (by decide) (by decide)
  have hv_bar : '│' ∉ fmtTime12 h mi s := fmtTime12_no (by decide) (by decide)
  have hv_cl : '└' ∉ fmtTime12 h mi s := fmtTime12_no (by decide) (by decide)
  have hv_da : '─' ∉ fmtTime12 h mi s := fmtTime12_no (by decide) (by decide)
  have hhash : containsSeq (mkFieldLine startLinePre (fmtTime12 h mi s)) patSessionHash = false :=
    not_contains_char '#' (by decide)
      (not_mem_mkFieldLine (by decide) hv_hash (by decide) (by decide))
  have hdate : containsSeq (mkFieldLine startLinePre (fmtTime12 h mi s)) patDate = false :=
    not_contains_char 'D' (by decide)
      (not_mem_mkFieldLine (by decide) hv_D (by decide) (by decide))
  have hend : containsSeq (mkFieldLine startLinePre (fmtTime12 h mi s)) patEnd = false :=
    not_contains_char 'E' (by decide)
      (not_mem_mkFieldLine (by decide) hv_E (by decide) (by decide))
  have hclose : containsSeq (mkFieldLine startLinePre (fmtTime12 h mi s)) patClose = false :=
    not_contains_char '└' (by decide)
      (not_mem_mkFieldLine (by decide) hv_cl (by decide) (by decide))
  have hdash : containsSeq (mkFieldLine startLinePre (fmtTime12 h mi s)) patDashes = false :=
    not_contains_char '─' (by decide)
      (not_mem_mkFieldLine (by decide) hv_da (by decide) (by decide))
  have hsplit : mkFieldLine startLinePre (fmtTime12 h mi s) =
      ("   │  ").data ++ patStart ++
        (("    ").data ++ (padRightSp 29 (fmtTime12 h mi s) ++ lineEndBar)) := by
    unfold mkFieldLine
    rw [show startLinePre = ("   │  ").data ++ patStart ++ ("    ").data from rfl]
    simp [List.append_assoc]
  have hcont : containsSeq (mkFieldLine startLinePre (fmtTime12 h mi s)) patStart = true := by
    rw [hsplit]
    exact containsSeq_iff.mpr ⟨_, _, rfl⟩
  have hsf : splitFirst patStart (mkFieldLine startLinePre (fmtTime12 h mi s)) =
      some (("   │  ").data,
        ("    ").data ++ (padRightSp 29 (fmtTime12 h mi s) ++ lineEndBar)) := by
    rw [hsplit]
    exact splitFirst_at 'S' (show patStart.head? = some 'S' from rfl) _ (by decide)
  unfold scanLine
  rw [stepSessionHash_neg hhash, stepDate_neg hdate, stepStart_pos hcont hdash hsf,
    takeBefore_field hv_bar _ (by decide),
    trim_field (fmtTime12_head h mi s) (fmtTime12_last_nospace h mi s)
      (fmtTime12_ne_nil h mi s) _ (by decide),
    stepEnd_neg hend, stepClose_neg hclose]

theorem scan_endLine (st : ScanState) (h mi s : Nat) :
    scanLine st (mkFieldLine endLinePre (fmtTime12 h mi s)) =
      { st with endStr := fmtTime12 h mi s } := by
  have hv_D : 'D' ∉ fmtTime12 h mi s := fmtTime12_no (by decide) (by decide)
  have hv_S : 'S' ∉ fmtTime12 h mi s := fmtTime12_no (by decide) (by decide)
  have hv_hash : '#' ∉ fmtTime12 h mi s := fmtTime12_no (by decide) (by decide)
  have hv_bar : '│' ∉ fmtTime12 h mi s := fmtTime12_no (by decide) (by decide)
  have hv_cl : '└' ∉ fmtTime12 h mi s := fmtTime12_no (by decide) (by decide)
  have hhash : containsSeq (mkFieldLine endLinePre (fmtTime12 h mi s)) patSessionHash = false :=
    not_contains_char '#' (by decide)
      (not_mem_mkFieldLine (by decide) hv_hash (by decide) (by decide))
  have hdate : containsSeq (mkFieldLine endLinePre (fmtTime12 h mi s)) patDate = false :=
    not_contains_char 'D' (by decide)
      (not_mem_mkFieldLine (by decide) hv_D (by decide) (by decide))
  have hstart : containsSeq (mkFieldLine endLinePre (fmtTime12 h mi s)) patStart = false :=
    not_contains_char 'S' (by decide)
      (not_mem_mkFieldLine (by decide) hv_S (by decide) (by decide))
  have hclose : containsSeq (mkFieldLine endLinePre (fmtTime12 h mi s)) patClose = false :=
    not_contains_char '└' (by decide)
      (not_mem_mkFieldLine (by decide) hv_cl (by decide) (by decide))
  have hsplit : mkFieldLine endLinePre (fmtTime12 h mi s) =
      ("   │  ").data ++ patEnd ++
        (("      ").data ++ (padRightSp 29 (fmtTime12 h mi s) ++ lineEndBar)) := by
    unfold mkFieldLine
    rw [show endLinePre = ("   │  ").data ++ patEnd ++ ("      ").data from rfl]
    simp [List.append_assoc]
  have hcont : containsSeq (mkFieldLine endLinePre (fmtTime12 h mi s)) patEnd = true := by
    rw [hsplit]
    exact containsSeq_iff.mpr ⟨_, _, rfl⟩
  have hsf : splitFirst patEnd (mkFieldLine endLinePre (fmtTime12 h mi s)) =
      some (("   │  ").data,
        ("      ").data ++ (padRightSp 29 (fmtTime12 h mi s) ++ lineEndBar)) := by
    rw [hsplit]
    exact splitFirst_at 'E' (show patEnd.head? = some 'E' from rfl) _ (by decide)
  unfold scanLine
  rw [stepSessionHash_neg hhash, stepDate_neg hdate, stepStart_neg hstart,
    stepEnd_pos hcont hsf,
    takeBefore_field hv_bar _ (by decide),
    trim_field (fmtTime12_head h mi s) (fmtTime12_last_nospace h mi s)
      (fmtTime12_ne_nil h mi s) _ (by decide),
    stepClose_neg hclose]

theorem scan_durLine (st : ScanState) (i : Int) :
    scanLine st (mkFieldLine durLinePre (formatDurationLong i)) = st := by
  have hv_e : 'e' ∉ formatDurationLong i := formatDurationLong_no (by decide) (by decide)
  have hv_S : 'S' ∉ formatDurationLong i := formatDurationLong_no (by decide) (by decide)
  have hv_E : 'E' ∉ formatDurationLong i := formatDurationLong_no (by decide) (by decide)
  have hv_hash : '#' ∉ formatDurationLong i := formatDurationLong_no (by decide) (by decide)
  have hv_cl : '└' ∉ formatDurationLong i := formatDurationLong_no (by decide) (by decide)
  exact scanLine_skip
    (not_contains_char '#' (by decide)
      (not_mem_mkFieldLine (by decide) hv_hash (by decide) (by decide)))
    (not_contains_char 'e' (by decide)
      (not_mem_mkFieldLine (by decide) hv_e (by decide) (by decide)))
    (not_contains_char 'S' (by decide)
      (not_mem_mkFieldLine (by decide) hv_S (by decide) (by decide)))
    (not_contains_char 'E' (by decide)
      (not_mem_mkFieldLine (by decide) hv_E (by decide) (by decide)))
    (not_contains_char '└' (by decide)
      (not_mem_mkFieldLine (by decide) hv_cl (by decide) (by decide)))

theorem isEmpty_false_of_ne {l : List Char} (h : l ≠ []) : l.isEmpty = false := by
  cases l
  · exact absurd rfl h
  · rfl

theorem stepClose_fires {st : ScanState} {line : Line}
    (hc : containsSeq line patClose = true) (hp : st.pending = true)
    (h1 : st.dateStr.isEmpty = false) (h2 : st.startStr.isEmpty = false)
    (h3 : st.endStr.isEmpty = false) {t1 t2 : DateTime}
    (hp1 : goTimeParse (st.dateStr ++ ' ' :: st.startStr) = some t1)
    (hp2 : goTimeParse (st.dateStr ++ ' ' :: st.endStr) = some t2) :
    stepClose st line =
      { st with history := st.history ++ [⟨t1, t2, dtSub t2 t1⟩], pending := false } := by
  simp [stepClose, hc, hp, h1, h2, h3, hp1, hp2]

set_option maxHeartbeats 2000000 in
theorem scan_block (st : ScanState) (i : Nat) (s : session) (hv : ValidSession s) :
    List.foldl scanLine st (blockLines i s) =
      ⟨st.history ++ [loadedOf s], false,
       fmtLongDate s.start.year s.start.month s.start.day,
       fmtTime12 s.start.hour s.start.minute s.start.second,
       fmtTime12 s.endT.hour s.endT.minute s.endT.second⟩ := by
  obtain ⟨⟨hy, hm1, hm2, hd1, hd31, hh, hmi, hs⟩, hdm⟩ := hv.1
  obtain ⟨⟨hy2, hm12, hm22, hd12, hd312, hh2, hmi2, hs2⟩, hdm2⟩ := hv.2
  simp only [blockLines, List.foldl_cons, List.foldl_nil]
  rw [scan_emptyLine, scan_blockTop, scan_sessionNoLine, scan_blockMid, scan_dateLine,
    scan_startLine, scan_endLine, scan_durLine]
  have hbot : ∀ st' : ScanState, scanLine st' blockBot = stepClose st' blockBot := by
    intro st'
    unfold scanLine
    rw [stepSessionHash_neg (by decide), stepDate_neg (by decide),
      stepStart_neg (by decide), stepEnd_neg (by decide)]
  rw [hbot]
  rw [stepClose_fires (by decide) rfl
    (isEmpty_false_of_ne (fmtLongDate_ne_nil _ _ _))
    (isEmpty_false_of_ne (fmtTime12_ne_nil _ _ _))
    (isEmpty_false_of_ne (fmtTime12_ne_nil _ _ _))
    (goTimeParse_fmt hy hm1 hm2 hd1 hdm hh hmi hs)
    (goTimeParse_fmt hy hm1 hm2 hd1 hdm hh2 hmi2 hs2)]
  rfl

/-! ## The scan of the whole file -/

theorem not_mem_append2 {c : Char} {a b : List Char} (ha : c ∉ a) (hb : c ∉ b) :
    c ∉ a ++ b := by
  intro h
  rcases List.mem_append.mp h with h | h
  · exact ha h
  · exact hb h

theorem scan_blocksFrom : ∀ (hist : List session) (i : Nat) (st : ScanState),
    (∀ s ∈ hist, ValidSession s) →
    ((blocksFrom i hist).foldl scanLine st).history = st.history ++ hist.map loadedOf ∧
    (hist = [] → (blocksFrom i hist).foldl scanLine st = st) ∧
    (hist ≠ [] → ((blocksFrom i hist).foldl scanLine st).pending = false) := by
  intro hist
  induction hist with
  | nil =>
    intro i st _
    refine ⟨by simp [blocksFrom], fun _ => by simp [blocksFrom], fun h => absurd rfl h⟩
  | cons s rest ih =>
    intro i st hv
    have hfold : (blocksFrom i (s :: rest)).foldl scanLine st =
        (blocksFrom (i + 1) rest).foldl scanLine
          ((blockLines i s).foldl scanLine st) := by
      rw [show blocksFrom i (s :: rest) = blockLines i s ++ blocksFrom (i + 1) rest from rfl,
        List.foldl_append]
    rw [hfold, scan_block st i s (hv s (by simp))]
    obtain ⟨ih1, ih2, ih3⟩ := ih (i + 1)
      ⟨st.history ++ [loadedOf s], false,
       fmtLongDate s.start.year s.start.month s.start.day,
       fmtTime12 s.start.hour s.start.minute s.start.second,
       fmtTime12 s.endT.hour s.endT.minute s.endT.second⟩
      (fun x hx => hv x (by simp [hx]))
    refine ⟨?_, fun h => absurd h (by simp), ?_⟩
    · rw [ih1]
      simp
    · intro _
      cases rest with
      | nil => rw [ih2 rfl]
      | cons a b => exact ih3 (by simp)

theorem headerLines_noHash (now : DateTime) (count : Nat) (total : Int) :
    ∀ l ∈ headerLines now count total, containsSeq l patSessionHash = false := by
  intro l hl
  unfold headerLines at hl
  rcases List.mem_append.mp hl with h | h
  · rcases List.mem_append.mp h with h1 | h1
    · rcases List.mem_singleton.mp h1 with rfl
      decide
    · exact (by decide : ∀ x ∈ bannerLines, containsSeq x patSessionHash = false) l h1
  · simp only [List.mem_cons, List.not_mem_nil, or_false] at h
    rcases h with rfl | rfl | rfl | rfl | rfl | rfl | rfl | rfl
    · decide
    · exact not_contains_char '#' (by decide)
        (not_mem_append2 (by decide) (fmtGenerated_no (by decide) (by decide)))
    · exact not_contains_char '#' (by decide)
        (not_mem_append2 (by decide) (natStr_no (by decide)))
    · exact not_contains_char '#' (by decide)
        (not_mem_append2 (by decide) (formatDurationLong_no (by decide) (by decide)))
    · decide
    · decide
    · decide
    · decide

theorem scan_benignList : ∀ (ls : List Line) (st : ScanState), st.pending = false →
    (∀ l ∈ ls, containsSeq l patSessionHash = false) →
    (ls.foldl scanLine st).history = st.history ∧ (ls.foldl scanLine st).pending = false := by
  intro ls
  induction ls with
  | nil => intro st hp _; exact ⟨rfl, hp⟩
  | cons l rest ih =>
    intro st hp hall
    simp only [List.foldl_cons]
    obtain ⟨h1, h2⟩ := scanLine_benign hp (hall l (by simp))
    obtain ⟨h3, h4⟩ := ih (scanLine st l) h2 (fun x hx => hall x (by simp [hx]))
    exact ⟨by rw [h3, h1], h4⟩

theorem scan_footer (st : ScanState) : footerLines.foldl scanLine st = st := by
  simp only [footerLines, List.foldl_cons, List.foldl_nil]
  rw [scan_emptyLine,
    scanLine_skip (by decide) (by decide) (by decide) (by decide) (by decide),
    scanLine_skip (by decide) (by decide) (by decide) (by decide) (by decide),
    scanLine_skip (by decide) (by decide) (by decide) (by decide) (by decide)]

/-- The central round-trip fact: scanning the report written for
`hist` recovers exactly `hist.map loadedOf`, in order. -/
theorem loadHistory_saveHistory (now : DateTime) (hist : List session)
    (hv : ∀ s ∈ hist, ValidSession s) :
    loadHistoryLines (saveHistory now hist) = hist.map loadedOf := by
  unfold loadHistoryLines saveHistory
  rw [List.foldl_append, List.foldl_append]
  obtain ⟨hh1, hh2⟩ := scan_benignList (headerLines now hist.length (sumDur hist)) initScan
    rfl (headerLines_noHash now _ _)
  by_cases hne : hist = []
  · subst hne
    rw [if_pos rfl]
    obtain ⟨hn1, hn2⟩ := scan_benignList noSessionLines _ hh2
      (by decide : ∀ l ∈ noSessionLines, containsSeq l patSessionHash = false)
    rw [scan_footer, hn1, hh1]
    rfl
  · rw [if_neg hne]
    obtain ⟨hb1, _, _⟩ := scan_blocksFrom hist 0
      ((headerLines now hist.length (sumDur hist)).foldl scanLine initScan) hv
    rw [scan_footer, hb1, hh1]
    rfl

/-! ## Deleting the `End:` line of one block -/

theorem eraseIdx_append_right {α : Type} :
    ∀ (A : List α) {B : List α} (n : Nat),
    (A ++ B).eraseIdx (A.length + n) = A ++ B.eraseIdx n := by
  intro A
  induction A with
  | nil => intro B n; simp
  | cons a A ih =>
    intro B n
    have e : (a :: A).length + n = (A.length + n) + 1 := by simp; omega
    rw [e]
    simp only [List.cons_append, List.eraseIdx_cons_succ]
    rw [ih]

theorem getD_append_right {α : Type} :
    ∀ (A : List α) {B : List α} (n : Nat) (d : α),
    (A ++ B).getD (A.length + n) d = B.getD n d := by
  intro A
  induction A with
  | nil => intro B n d; simp
  | cons a A ih =>
    intro B n d
    have e : (a :: A).length + n = (A.length + n) + 1 := by simp; omega
    rw [e]
    simp only [List.cons_append]
    rw [show ((a :: (A ++ B)).getD ((A.length + n) + 1) d) = (A ++ B).getD (A.length + n) d
      from rfl]
    rw [ih]

theorem blocksFrom_append : ∀ (a : List session) {b : List session} (i : Nat),
    blocksFrom i (a ++ b) = blocksFrom i a ++ blocksFrom (i + a.length) b := by
  intro a
  induction a with
  | nil => intro b i; simp [blocksFrom]
  | cons s rest ih =>
    intro b i
    simp only [List.cons_append, blocksFrom, List.append_assoc, List.append_eq]
    rw [ih]
    have e : i + 1 + rest.length = i + (rest.length + 1) := by omega
    rw [e]
    rfl

theorem blocksFrom_length : ∀ (hist : List session) (i : Nat),
    (blocksFrom i hist).length = 9 * hist.length := by
  intro hist
  induction hist with
  | nil => intro i; rfl
  | cons s rest ih =>
    intro i
    simp only [blocksFrom, List.length_append, ih, List.length_cons]
    have : (blockLines i s).length = 9 := rfl
    rw [this]
    omega

theorem scanLine_blockBot (st : ScanState) : scanLine st blockBot = stepClose st blockBot := by
  unfold scanLine
  rw [stepSessionHash_neg (by decide), stepDate_neg (by decide),
    stepStart_neg (by decide), stepEnd_neg (by decide)]

theorem stepClose_emptyEnd {st : ScanState} {line : Line}
    (h3 : st.endStr.isEmpty = true) : stepClose st line = st := by
  simp [stepClose, h3]

set_option maxHeartbeats 2000000 in
theorem scan_blockNoEnd (st : ScanState) (i : Nat) (s : session) :
    List.foldl scanLine st
      [[], blockTop, mkSessionNoLine (i + 1), blockMid,
       mkFieldLine dateLinePre (fmtLongDate s.start.year s.start.month s.start.day),
       mkFieldLine startLinePre (fmtTime12 s.start.hour s.start.minute s.start.second),
       mkFieldLine durLinePre (formatDurationLong s.duration), blockBot] =
      ⟨st.history, true, fmtLongDate s.start.year s.start.month s.start.day,
       fmtTime12 s.start.hour s.start.minute s.start.second, []⟩ := by
  simp only [List.foldl_cons, List.foldl_nil]
  rw [scan_emptyLine, scan_blockTop, scan_sessionNoLine, scan_blockMid, scan_dateLine,
    scan_startLine, scan_durLine, scanLine_blockBot]
  exact stepClose_emptyEnd rfl

theorem contains_endLine (h mi s : Nat) :
    containsSeq (mkFieldLine endLinePre (fmtTime12 h mi s)) patEnd = true := by
  have hsplit : mkFieldLine endLinePre (fmtTime12 h mi s) =
      ("   │  ").data ++ patEnd ++
        (("      ").data ++ (padRightSp 29 (fmtTime12 h mi s) ++ lineEndBar)) := by
    unfold mkFieldLine
    rw [show endLinePre = ("   │  ").data ++ patEnd ++ ("      ").data from rfl]
    simp [List.append_assoc]
  rw [hsplit]
  exact containsSeq_iff.mpr ⟨_, _, rfl⟩

/-- Deleting the `End:` line of the `k`-th record block (the line at
file index `26 + (9k + 6)`: 26 header lines, 9 lines per block, the
`End:` line 6 lines into a block) loses exactly that session. -/
theorem loadHistory_save_eraseEnd (now : DateTime) (hist : List session) (k : Nat)
    (hk : k < hist.length) (hv : ∀ s ∈ hist, ValidSession s) :
    containsSeq ((saveHistory now hist).getD (26 + (9 * k + 6)) []) patEnd = true ∧
    loadHistoryLines ((saveHistory now hist).eraseIdx (26 + (9 * k + 6))) =
      (hist.eraseIdx k).map loadedOf := by
  have hne : hist ≠ [] := by
    intro h
    rw [h] at hk
    simp at hk
  have hkeq : (hist.take k).length = k := by
    rw [List.length_take]
    omega
  have hsplit : hist = hist.take k ++ ((hist[k]) :: hist.drop (k + 1)) := by
    conv_lhs => rw [← List.take_append_drop k hist]
    congr 1
    exact (List.getElem_cons_drop hist k hk).symm
  have hmid : blocksFrom 0 hist =
      blocksFrom 0 (hist.take k) ++
        (blockLines k (hist[k]) ++ blocksFrom (k + 1) (hist.drop (k + 1))) := by
    conv_lhs => rw [hsplit]
    rw [blocksFrom_append, hkeq, Nat.zero_add]
    rfl
  have hfile : saveHistory now hist =
      headerLines now hist.length (sumDur hist) ++
        (blocksFrom 0 (hist.take k) ++
          (blockLines k (hist[k]) ++
            (blocksFrom (k + 1) (hist.drop (k + 1)) ++ footerLines))) := by
    unfold saveHistory
    rw [if_neg hne, hmid]
    simp [List.append_assoc]
  have hhead : (26 : Nat) + (9 * k + 6) =
      (headerLines now hist.length (sumDur hist)).length + (9 * k + 6) := rfl
  have hblen : (9 : Nat) * k + 6 = (blocksFrom 0 (hist.take k)).length + 6 := by
    rw [blocksFrom_length, hkeq]
  constructor
  · rw [hfile, hhead, getD_append_right, hblen, getD_append_right]
    have e6 : ((blockLines k (hist[k]) ++
        (blocksFrom (k + 1) (hist.drop (k + 1)) ++ footerLines)).getD 6 []) =
        mkFieldLine endLinePre (fmtTime12 (hist[k]).endT.hour (hist[k]).endT.minute
          (hist[k]).endT.second) := rfl
    rw [e6]
    exact contains_endLine _ _ _
  · rw [hfile, hhead, eraseIdx_append_right, hblen, eraseIdx_append_right]
    have herase : ((blockLines k (hist[k]) ++
        (blocksFrom (k + 1) (hist.drop (k + 1)) ++ footerLines)).eraseIdx 6) =
        ([[], blockTop, mkSessionNoLine (k + 1), blockMid,
          mkFieldLine dateLinePre (fmtLongDate (hist[k]).start.year (hist[k]).start.month
            (hist[k]).start.day),
          mkFieldLine startLinePre (fmtTime12 (hist[k]).start.hour (hist[k]).start.minute
            (hist[k]).start.second),
          mkFieldLine durLinePre (formatDurationLong (hist[k]).duration), blockBot] : List Line) ++
          (blocksFrom (k + 1) (hist.drop (k + 1)) ++ footerLines) := rfl
    rw [herase]
    unfold loadHistoryLines
    simp only [List.foldl_append]
    rw [scan_footer, scan_blockNoEnd]
    obtain ⟨hH1, hH2⟩ := scan_benignList (headerLines now hist.length (sumDur hist)) initScan
      rfl (headerLines_noHash now _ _)
    obtain ⟨hB1, _, _⟩ := scan_blocksFrom (hist.take k) 0
      ((headerLines now hist.length (sumDur hist)).foldl scanLine initScan)
      (fun s hs => hv s (List.mem_of_mem_take hs))
    obtain ⟨hD1, _, _⟩ := scan_blocksFrom (hist.drop (k + 1)) (k + 1)
      ⟨((blocksFrom 0 (hist.take k)).foldl scanLine
          ((headerLines now hist.length (sumDur hist)).foldl scanLine initScan)).history, true,
        fmtLongDate (hist[k]).start.year (hist[k]).start.month (hist[k]).start.day,
        fmtTime12 (hist[k]).start.hour (hist[k]).start.minute (hist[k]).start.second, []⟩
      (fun s hs => hv s (List.mem_of_mem_drop hs))
    rw [hD1]
    have e : (⟨((blocksFrom 0 (hist.take k)).foldl scanLine
          ((headerLines now hist.length (sumDur hist)).foldl scanLine initScan)).history, true,
        fmtLongDate (hist[k]).start.year (hist[k]).start.month (hist[k]).start.day,
        fmtTime12 (hist[k]).start.hour (hist[k]).start.minute (hist[k]).start.second,
        []⟩ : ScanState).history =
        ((blocksFrom 0 (hist.take k)).foldl scanLine
          ((headerLines now hist.length (sumDur hist)).foldl scanLine initScan)).history := rfl
    rw [e, hB1, hH1]
    have einit : initScan.history = [] := rfl
    rw [einit]
    rw [show hist.eraseIdx k = hist.take k ++ hist.drop (k + 1) from
      List.eraseIdx_eq_take_drop_succ hist k]
    simp

/-! ## The duration invariant of everything the reader emits -/

theorem stepSessionHash_same (st : ScanState) (l : Line) :
    (stepSessionHash st l).history = st.history := by
  unfold stepSessionHash
  split
  · rfl
  · rfl

theorem stepClose_history (st : ScanState) (l : Line) :
    (stepClose st l).history = st.history ∨
    ∃ t1 t2, (stepClose st l).history = st.history ++ [⟨t1, t2, dtSub t2 t1⟩] := by
  unfold stepClose
  split
  · split
    · exact Or.inr ⟨_, _, rfl⟩
    · exact Or.inl rfl
  · exact Or.inl rfl

theorem scanLine_duration {st : ScanState} {l : Line}
    (h : ∀ s ∈ st.history, s.duration = dtSub s.endT s.start) :
    ∀ s ∈ (scanLine st l).history, s.duration = dtSub s.endT s.start := by
  have h0 := stepSessionHash_same st l
  have h1 := (stepDate_same (stepSessionHash st l) l).1
  have h2 := (stepStart_same (stepDate (stepSessionHash st l) l) l).1
  have h3 := (stepEnd_same (stepStart (stepDate (stepSessionHash st l) l) l) l).1
  have hst4 : (stepEnd (stepStart (stepDate (stepSessionHash st l) l) l) l).history
      = st.history := by rw [h3, h2, h1, h0]
  intro s hs
  unfold scanLine at hs
  rcases stepClose_history (stepEnd (stepStart (stepDate (stepSessionHash st l) l) l) l) l
    with hc | ⟨t1, t2, hc⟩
  · rw [hc, hst4] at hs
    exact h s hs
  · rw [hc, hst4] at hs
    rcases List.mem_append.mp hs with hm | hm
    · exact h s hm
    · rw [List.mem_singleton.mp hm]

theorem scan_duration : ∀ (ls : List Line) (st : ScanState),
    (∀ s ∈ st.history, s.duration = dtSub s.endT s.start) →
    ∀ s ∈ (ls.foldl scanLine st).history, s.duration = dtSub s.endT s.start := by
  intro ls
  induction ls with
  | nil => intro st h; exact h
  | cons l rest ih =>
    intro st h
    simp only [List.foldl_cons]
    exact ih (scanLine st l) (scanLine_duration h)

theorem stepClose_drops {st : ScanState} {line : Line}
    (hc : containsSeq line patClose = true) (hp : st.pending = true)
    (h1 : st.dateStr.isEmpty = false) (h2 : st.startStr.isEmpty = false)
    (h3 : st.endStr.isEmpty = false)
    (hno : goTimeParse (st.dateStr ++ ' ' :: st.startStr) = none ∨
           goTimeParse (st.dateStr ++ ' ' :: st.endStr) = none) :
    stepClose st line = { st with pending := false } := by
  simp only [stepClose, hc, hp, h1, h2, h3, Bool.not_false, Bool.and_self, if_true]
  rcases hno with hno | hno
  · rw [hno]
  · rw [hno]
    cases goTimeParse (st.dateStr ++ ' ' :: st.startStr) <;> rfl

/-! ## The claims -/

/-- C1 (counterexample): the round-trip claim as stated fails.  The
session below is well-formed (`end ≥ start`, second precision, its
`duration` field even equals `end - start`), but writing and reading
the one-session collection does not reproduce it: the writer records
only the start's calendar date, so the reader re-attaches the end
time-of-day to that date and the midnight-crossing end comes back a
day early. -/
theorem C1_roundtrip_counterexample :
    toSecs (⟨2023, 6, 10, 23, 0, 0⟩ : DateTime) ≤ toSecs (⟨2023, 6, 11, 1, 0, 0⟩ : DateTime) ∧
    ¬ (loadHistoryLines (saveHistory ⟨2023, 6, 11, 8, 0, 0⟩
        [⟨⟨2023, 6, 10, 23, 0, 0⟩, ⟨2023, 6, 11, 1, 0, 0⟩, 7200⟩]) =
      [⟨⟨2023, 6, 10, 23, 0, 0⟩, ⟨2023, 6, 11, 1, 0, 0⟩, 7200⟩]) := by
  decide

/-- C1 (amended): for every collection of well-formed sessions
(`end ≥ start`, second precision, valid calendar fields) **whose end
falls on the same calendar date as their start**, reading the file
produced by writing the collection yields exactly the same number of
sessions, with `start` and `end` exactly equal to the originals and
`duration` recomputed as `end - start`. -/
theorem C1_roundtrip_sameday (now : DateTime) (hist : List session)
    (hv : ∀ s ∈ hist, ValidSession s ∧ sameCalendarDay s ∧ toSecs s.start ≤ toSecs s.endT) :
    loadHistoryLines (saveHistory now hist) =
      hist.map (fun s => ⟨s.start, s.endT, dtSub s.endT s.start⟩) := by
  rw [loadHistory_saveHistory now hist (fun s hs => (hv s hs).1)]
  apply List.map_congr_left
  intro s hs
  obtain ⟨_, ⟨h1, h2, h3⟩, _⟩ := hv s hs
  unfold loadedOf
  have he : (⟨s.start.year, s.start.month, s.start.day,
      s.endT.hour, s.endT.minute, s.endT.second⟩ : DateTime) = s.endT := by
    rw [← h1, ← h2, ← h3]
  rw [he]

theorem C1_roundtrip_sameday_witness :
    (∀ s ∈ ([⟨⟨2023, 6, 10, 9, 30, 0⟩, ⟨2023, 6, 10, 10, 45, 30⟩, 4530⟩] : List session),
      ValidSession s ∧ sameCalendarDay s ∧ toSecs s.start ≤ toSecs s.endT) ∧
    loadHistoryLines (saveHistory ⟨2023, 6, 11, 8, 0, 0⟩
        [⟨⟨2023, 6, 10, 9, 30, 0⟩, ⟨2023, 6, 10, 10, 45, 30⟩, 4530⟩]) =
      ([⟨⟨2023, 6, 10, 9, 30, 0⟩, ⟨2023, 6, 10, 10, 45, 30⟩, 4530⟩] : List session).map
        (fun s => ⟨s.start, s.endT, dtSub s.endT s.start⟩) :=
  ⟨by decide, C1_roundtrip_sameday ⟨2023, 6, 11, 8, 0, 0⟩ _ (by decide)⟩

/-- C2: any failure to open the history file — a missing file or any
other open error, both modelled by the reader receiving `none` — makes
`loadHistory` return the empty collection rather than an error. -/
theorem C2_load_open_failure : loadHistory none = [] := rfl

/-- C3: deleting the `End:` line of exactly one record block (block
`k`; its `End:` line sits at file index `26 + (9k + 6)`, and the first
conjunct checks the deleted line really is an `End:` line) makes the
reader drop exactly that record: the result is the other sessions, in
order, each recovered as usual. -/
theorem C3_missing_end_line (now : DateTime) (hist : List session) (k : Nat)
    (hk : k < hist.length) (hv : ∀ s ∈ hist, ValidSession s) :
    containsSeq ((saveHistory now hist).getD (26 + (9 * k + 6)) []) patEnd = true ∧
    loadHistoryLines ((saveHistory now hist).eraseIdx (26 + (9 * k + 6))) =
      (hist.eraseIdx k).map loadedOf :=
  loadHistory_save_eraseEnd now hist k hk hv

theorem C3_missing_end_line_witness :
    containsSeq ((saveHistory ⟨2023, 6, 11, 8, 0, 0⟩
        [⟨⟨2023, 6, 10, 23, 0, 0⟩, ⟨2023, 6, 11, 1, 0, 0⟩, 7200⟩,
         ⟨⟨2023, 6, 10, 9, 30, 0⟩, ⟨2023, 6, 10, 10, 45, 30⟩, 4530⟩]).getD
        (26 + (9 * 0 + 6)) []) patEnd = true ∧
    loadHistoryLines ((saveHistory ⟨2023, 6, 11, 8, 0, 0⟩
        [⟨⟨2023, 6, 10, 23, 0, 0⟩, ⟨2023, 6, 11, 1, 0, 0⟩, 7200⟩,
         ⟨⟨2023, 6, 10, 9, 30, 0⟩, ⟨2023, 6, 10, 10, 45, 30⟩, 4530⟩]).eraseIdx
        (26 + (9 * 0 + 6))) =
      (([⟨⟨2023, 6, 10, 23, 0, 0⟩, ⟨2023, 6, 11, 1, 0, 0⟩, 7200⟩,
         ⟨⟨2023, 6, 10, 9, 30, 0⟩, ⟨2023, 6, 10, 10, 45, 30⟩, 4530⟩] :
        List session).eraseIdx 0).map loadedOf :=
  C3_missing_end_line ⟨2023, 6, 11, 8, 0, 0⟩ _ 0 (by decide) (by decide)

/-- C4: at a closing delimiter line (containing `└──`), with a pending
record and all three captured strings non-empty, the handler parses
`date ++ " " ++ start` and `date ++ " " ++ end` with the modelled
`time.Parse` layout `"Monday, January 02, 2006 03:04:05 PM"`.  If
both succeed the record is appended with the parsed endpoints and the
duration recomputed as `end - start` (the on-disk duration text is
never consulted — the scanner has no handler for it); if either parse
fails nothing is appended; in both cases the pending record is
discarded. -/
theorem C4_close_delimiter (st : ScanState) (line : Line)
    (hc : containsSeq line patClose = true) (hp : st.pending = true)
    (h1 : st.dateStr ≠ []) (h2 : st.startStr ≠ []) (h3 : st.endStr ≠ []) :
    (∀ t1 t2, goTimeParse (st.dateStr ++ ' ' :: st.startStr) = some t1 →
        goTimeParse (st.dateStr ++ ' ' :: st.endStr) = some t2 →
        stepClose st line =
          { st with history := st.history ++ [⟨t1, t2, dtSub t2 t1⟩], pending := false }) ∧
    ((goTimeParse (st.dateStr ++ ' ' :: st.startStr) = none ∨
        goTimeParse (st.dateStr ++ ' ' :: st.endStr) = none) →
      stepClose st line = { st with pending := false }) := by
  constructor
  · intro t1 t2 hp1 hp2
    exact stepClose_fires hc hp (isEmpty_false_of_ne h1) (isEmpty_false_of_ne h2)
      (isEmpty_false_of_ne h3) hp1 hp2
  · intro hno
    exact stepClose_drops hc hp (isEmpty_false_of_ne h1) (isEmpty_false_of_ne h2)
      (isEmpty_false_of_ne h3) hno

theorem C4_close_delimiter_witness :
    stepClose ⟨[], true, ("Saturday, June 10, 2023").data, ("09:30:00 AM").data,
        ("10:45:30 AM").data⟩ blockBot =
      { history := [⟨⟨2023, 6, 10, 9, 30, 0⟩, ⟨2023, 6, 10, 10, 45, 30⟩,
          dtSub ⟨2023, 6, 10, 10, 45, 30⟩ ⟨2023, 6, 10, 9, 30, 0⟩⟩],
        pending := false, dateStr := ("Saturday, June 10, 2023").data,
        startStr := ("09:30:00 AM").data, endStr := ("10:45:30 AM").data } :=
  (C4_close_delimiter ⟨[], true, ("Saturday, June 10, 2023").data, ("09:30:00 AM").data,
      ("10:45:30 AM").data⟩ blockBot (by decide) rfl (by decide) (by decide) (by decide)).1
    ⟨2023, 6, 10, 9, 30, 0⟩ ⟨2023, 6, 10, 10, 45, 30⟩ (by decide) (by decide)

/-- C5: the sessions the reader recovers from a written collection are
`hist.map loadedOf` — one recovered session per written session, in
exactly the order they were written, whatever the count (the scan is a
single forward fold and `loadedOf` is applied elementwise). -/
theorem C5_order_preserved (now : DateTime) (hist : List session)
    (hv : ∀ s ∈ hist, ValidSession s) :
    loadHistoryLines (saveHistory now hist) = hist.map loadedOf :=
  loadHistory_saveHistory now hist hv

theorem C5_order_preserved_witness :
    (∀ s ∈ ([⟨⟨2023, 6, 10, 23, 0, 0⟩, ⟨2023, 6, 11, 1, 0, 0⟩, 7200⟩,
        ⟨⟨2023, 6, 10, 9, 30, 0⟩, ⟨2023, 6, 10, 10, 45, 30⟩, 4530⟩] : List session),
      ValidSession s) ∧
    loadHistoryLines (saveHistory ⟨2023, 6, 11, 8, 0, 0⟩
        [⟨⟨2023, 6, 10, 23, 0, 0⟩, ⟨2023, 6, 11, 1, 0, 0⟩, 7200⟩,
         ⟨⟨2023, 6, 10, 9, 30, 0⟩, ⟨2023, 6, 10, 10, 45, 30⟩, 4530⟩]) =
      ([⟨⟨2023, 6, 10, 23, 0, 0⟩, ⟨2023, 6, 11, 1, 0, 0⟩, 7200⟩,
        ⟨⟨2023, 6, 10, 9, 30, 0⟩, ⟨2023, 6, 10, 10, 45, 30⟩, 4530⟩] : List session).map
        loadedOf :=
  ⟨by decide, C5_order_preserved ⟨2023, 6, 11, 8, 0, 0⟩ _ (by decide)⟩

/-- C6: writing the empty collection and reading the file back yields
the empty collection, although the written file is non-empty — it
still contains the banner, the metadata block (`Total Sessions: 0`),
the `SESSION HISTORY` section header with its closing delimiter line,
and the footer. -/
theorem C6_write_empty_read_empty (now : DateTime) :
    loadHistoryLines (saveHistory now []) = [] ∧
    saveHistory now [] ≠ [] ∧
    (' ' :: '╔' :: List.replicate 64 '═' ++ ['╗']) ∈ saveHistory now [] ∧
    ("  Total Sessions: ").data ++ natStr 0 ∈ saveHistory now [] ∧
    histMid ∈ saveHistory now [] ∧
    histBot ∈ saveHistory now [] ∧
    footMid ∈ saveHistory now [] := by
  refine ⟨?_, ?_, ?_, ?_, ?_, ?_, ?_⟩
  · have h := loadHistory_saveHistory now [] (fun s hs => absurd hs (List.not_mem_nil s))
    simpa using h
  · simp [saveHistory, headerLines]
  · simp [saveHistory, headerLines, bannerLines, barTop]
  · simp [saveHistory, headerLines]
  · simp [saveHistory, headerLines]
  · simp [saveHistory, headerLines]
  · simp [saveHistory, footerLines]

/-- C7: the long-form duration formatter renders the largest nonzero
unit first and omits zero-valued leading units: 3725 s is `"1h 2m 5s"`,
65 s is `"1m 5s"`, 5 s is `"5s"` and 0 s is `"0s"`. -/
theorem C7_formatDurationLong_examples :
    formatDurationLong 3725 = ("1h 2m 5s").data ∧
    formatDurationLong 65 = ("1m 5s").data ∧
    formatDurationLong 5 = ("5s").data ∧
    formatDurationLong 0 = ("0s").data := by
  decide

/-- C8: the short-form duration formatter yields zero-padded `"MM:SS"`
when the duration has zero whole hours (62 s is `"01:02"`), and
zero-padded `"HH:MM:SS"` whenever the hour count is positive (3723 s
is `"01:02:03"`). -/
theorem C8_formatDuration_spec (d : Int) :
    formatDuration 62 = ("01:02").data ∧
    formatDuration 3723 = ("01:02:03").data ∧
    (d.tdiv 3600 = 0 →
      formatDuration d = intPad2 ((d.tdiv 60).tmod 60) ++ ':' :: intPad2 (d.tmod 60)) ∧
    (0 < d.tdiv 3600 →
      formatDuration d = intPad2 (d.tdiv 3600) ++ ':' :: intPad2 ((d.tdiv 60).tmod 60) ++
        ':' :: intPad2 (d.tmod 60)) := by
  refine ⟨by decide, by decide, ?_, ?_⟩
  · intro h
    unfold formatDuration
    rw [if_neg (by omega)]
  · intro h
    unfold formatDuration
    rw [if_pos h]

theorem C8_formatDuration_spec_witness :
    formatDuration 62 = intPad2 (((62 : Int).tdiv 60).tmod 60) ++ ':' ::
      intPad2 ((62 : Int).tmod 60) ∧
    formatDuration 3723 = intPad2 ((3723 : Int).tdiv 3600) ++ ':' ::
      intPad2 (((3723 : Int).tdiv 60).tmod 60) ++ ':' :: intPad2 ((3723 : Int).tmod 60) :=
  ⟨(C8_formatDuration_spec 62).2.2.1 (by decide),
   (C8_formatDuration_spec 3723).2.2.2 (by decide)⟩

/-- C9: whatever the file contents — not only writer output — every
session the reader returns satisfies `duration = end - start` exactly,
because the only place a record is ever appended computes its duration
from its own parsed endpoints. -/
theorem C9_duration_recomputed (lines : List Line) :
    ∀ s ∈ loadHistoryLines lines, s.duration = dtSub s.endT s.start :=
  scan_duration lines initScan (fun s hs => absurd hs (List.not_mem_nil s))

theorem C9_duration_recomputed_witness :
    (⟨⟨2023, 6, 10, 9, 30, 0⟩, ⟨2023, 6, 10, 10, 45, 30⟩, 4530⟩ : session) ∈
      loadHistoryLines (saveHistory ⟨2023, 6, 11, 8, 0, 0⟩
        [⟨⟨2023, 6, 10, 9, 30, 0⟩, ⟨2023, 6, 10, 10, 45, 30⟩, 4530⟩]) ∧
    (⟨⟨2023, 6, 10, 9, 30, 0⟩, ⟨2023, 6, 10, 10, 45, 30⟩, 4530⟩ : session).duration =
      dtSub (⟨⟨2023, 6, 10, 9, 30, 0⟩, ⟨2023, 6, 10, 10, 45, 30⟩, 4530⟩ : session).endT
        (⟨⟨2023, 6, 10, 9, 30, 0⟩, ⟨2023, 6, 10, 10, 45, 30⟩, 4530⟩ : session).start :=
  ⟨by decide, C9_duration_recomputed
    (saveHistory ⟨2023, 6, 11, 8, 0, 0⟩
      [⟨⟨2023, 6, 10, 9, 30, 0⟩, ⟨2023, 6, 10, 10, 45, 30⟩, 4530⟩])
    ⟨⟨2023, 6, 10, 9, 30, 0⟩, ⟨2023, 6, 10, 10, 45, 30⟩, 4530⟩ (by decide)⟩

/-- C10: the writer records only the start's calendar date and the
reader rebuilds both endpoints from that one date string, so every
session recovered from a writer-produced file has its end on the same
calendar day as its start. -/
theorem C10_end_same_calendar_day (now : DateTime) (hist : List session)
    (hv : ∀ s ∈ hist, ValidSession s) :
    ∀ s' ∈ loadHistoryLines (saveHistory now hist),
      s'.endT.year = s'.start.year ∧ s'.endT.month = s'.start.month ∧
      s'.endT.day = s'.start.day := by
  intro s' hs'
  rw [loadHistory_saveHistory now hist hv] at hs'
  obtain ⟨s, _, rfl⟩ := List.mem_map.mp hs'
  exact ⟨rfl, rfl, rfl⟩

theorem C10_end_same_calendar_day_witness :
    (∀ s ∈ ([⟨⟨2023, 6, 10, 23, 0, 0⟩, ⟨2023, 6, 11, 1, 0, 0⟩, 7200⟩] : List session),
      ValidSession s) ∧
    ((⟨⟨2023, 6, 10, 23, 0, 0⟩, ⟨2023, 6, 10, 1, 0, 0⟩, -79200⟩ : session).endT.year =
      (⟨⟨2023, 6, 10, 23, 0, 0⟩, ⟨2023, 6, 10, 1, 0, 0⟩, -79200⟩ : session).start.year ∧
     (⟨⟨2023, 6, 10, 23, 0, 0⟩, ⟨2023, 6, 10, 1, 0, 0⟩, -79200⟩ : session).endT.month =
      (⟨⟨2023, 6, 10, 23, 0, 0⟩, ⟨2023, 6, 10, 1, 0, 0⟩, -79200⟩ : session).start.month ∧
     (⟨⟨2023, 6, 10, 23, 0, 0⟩, ⟨2023, 6, 10, 1, 0, 0⟩, -79200⟩ : session).endT.day =
      (⟨⟨2023, 6, 10, 23, 0, 0⟩, ⟨2023, 6, 10, 1, 0, 0⟩, -79200⟩ : session).start.day) :=
  ⟨by decide, C10_end_same_calendar_day ⟨2023, 6, 11, 8, 0, 0⟩
    [⟨⟨2023, 6, 10, 23, 0, 0⟩, ⟨2023, 6, 11, 1, 0, 0⟩, 7200⟩] (by decide)
    ⟨⟨2023, 6, 10, 23, 0, 0⟩, ⟨2023, 6, 10, 1, 0, 0⟩, -79200⟩ (by decide)⟩

end TimeTracker
